import Mathlib

set_option autoImplicit false

/-!
Verification development for the petVet_doc_bot repository: a shallow
embedding of its appointment slot manager, booking state machine,
response cache and similarity matcher, with theorems settling the
specification claims about them.

Instants are JavaScript epoch milliseconds, modelled as integers. The host
clock and timezone are modelled as UTC, so the local-time accessors of
JavaScript Date (getHours, getDay, getDate, ...) are the UTC decompositions
of the millisecond value.
-/

/-- JavaScript Date.prototype.getHours under the UTC host-timezone model. -/
def jsGetHours (t : Int) : Int := (t.ediv 3600000).emod 24

/-- JavaScript Date.prototype.getMinutes under the UTC host-timezone model. -/
def jsGetMinutes (t : Int) : Int := (t.ediv 60000).emod 60

/-- JavaScript Date.prototype.getDay: 0 = Sunday .. 6 = Saturday
(1970-01-01 was a Thursday). -/
def jsGetDay (t : Int) : Int := ((t.ediv 86400000) + 4).emod 7

/-- Midnight (00:00:00.000) of the calendar day containing `t`. -/
def jsDayStart (t : Int) : Int := t - t.emod 86400000

/-- JavaScript setHours(h, m, s, ms): same calendar day, clock set to the
given components; out-of-range components roll over into adjacent days, as
in the ECMAScript MakeTime/MakeDate algorithm. -/
def jsSetHours (t h m s ms : Int) : Int :=
  jsDayStart t + h * 3600000 + m * 60000 + s * 1000 + ms

/-- Civil-calendar decomposition of a day number (days since 1970-01-01)
into (year, month 1-12, day 1-31); the standard era-based algorithm,
used to model the calendar components of ECMAScript dates. -/
def civilFromDays (z0 : Int) : Int × Int × Int :=
  let z := z0 + 719468
  let era := z.ediv 146097
  let doe := z.emod 146097
  let yoe := (doe - doe.ediv 1460 + doe.ediv 36524 - doe.ediv 146096).ediv 365
  let y := yoe + era * 400
  let doy := doe - (365 * yoe + yoe.ediv 4 - yoe.ediv 100)
  let mp := (5 * doy + 2).ediv 153
  let d := doy - (153 * mp + 2).ediv 5 + 1
  let m := if mp < 10 then mp + 3 else mp - 9
  (if m ≤ 2 then y + 1 else y, m, d)

/-- Day number (days since 1970-01-01) of the first day of month `m`
(1-12) of year `y`; era-based inverse of `civilFromDays`. -/
def daysOfMonthStart (y m : Int) : Int :=
  let y1 := if m ≤ 2 then y - 1 else y
  let era := y1.ediv 400
  let yoe := y1 - era * 400
  let doy := (153 * (if 2 < m then m - 3 else m + 9) + 2).ediv 5
  era * 146097 + yoe * 365 + yoe.ediv 4 - yoe.ediv 100 + doy - 719468

/-- JavaScript Date.prototype.getDate (day of month, 1-31). -/
def jsGetDate (t : Int) : Int := (civilFromDays (t.ediv 86400000)).2.2

/-- JavaScript Date.prototype.getMonth (0-based month). -/
def jsGetMonth (t : Int) : Int := (civilFromDays (t.ediv 86400000)).2.1 - 1

/-- JavaScript setDate(n): keeps year, month and time of day and sets the
day of month to `n`; out-of-range values roll into adjacent months, as in
the ECMAScript MakeDay algorithm. -/
def jsSetDate (t n : Int) : Int :=
  let c := civilFromDays (t.ediv 86400000)
  (daysOfMonthStart c.1 c.2.1 + (n - 1)) * 86400000 + t.emod 86400000

/-- JavaScript setMonth(m): 0-based month rolled into adjacent years, day
of month and time of day kept (day overflow rolls, as in MakeDay). -/
def jsSetMonth (t m : Int) : Int :=
  let c := civilFromDays (t.ediv 86400000)
  (daysOfMonthStart (c.1 + m.ediv 12) (m.emod 12 + 1) + (c.2.2 - 1)) * 86400000
    + t.emod 86400000

/-- ASCII lower-casing, the behaviour of String.prototype.toLowerCase on
the ASCII text this system handles. -/
def asciiLowerChar (c : Char) : Char :=
  if 65 ≤ c.toNat ∧ c.toNat ≤ 90 then Char.ofNat (c.toNat + 32) else c

/-- JavaScript String.prototype.toLowerCase (ASCII model). -/
def jsToLowerCase (s : List Char) : List Char := s.map asciiLowerChar

/-- JavaScript String.prototype.trim: strip leading and trailing
whitespace. -/
def jsTrim (s : List Char) : List Char :=
  ((s.dropWhile Char.isWhitespace).reverse.dropWhile Char.isWhitespace).reverse

/-- Decidable test that the first list is a prefix of the second. -/
def isPrefixList {α : Type} [DecidableEq α] : List α → List α → Bool
  | [], _ => true
  | _ :: _, [] => false
  | a :: as, b :: bs => if a = b then isPrefixList as bs else false

/-- JavaScript String.prototype.includes: contiguous-substring test. -/
def jsIncludes (s sub : List Char) : Bool :=
  if isPrefixList sub s then true
  else
    match s with
    | [] => false
    | _ :: rest => jsIncludes rest sub

/-- Lookup in an insertion-ordered association map (JavaScript Map.get). -/
def mget {κ ν : Type} [DecidableEq κ] (k : κ) : List (κ × ν) → Option ν
  | [] => none
  | p :: rest => if p.1 = k then some p.2 else mget k rest

/-- JavaScript Map.set: replaces the value in place if the key is present,
otherwise appends the binding at the end of the iteration order. -/
def mset {κ ν : Type} [DecidableEq κ] (k : κ) (v : ν) : List (κ × ν) → List (κ × ν)
  | [] => [(k, v)]
  | p :: rest => if p.1 = k then (k, v) :: rest else p :: mset k v rest

/-- JavaScript Map.delete: removes the binding of the key, if any. -/
def mdel {κ ν : Type} [DecidableEq κ] (k : κ) : List (κ × ν) → List (κ × ν)
  | [] => []
  | p :: rest => if p.1 = k then rest else p :: mdel k rest

/-! ## AppointmentSlotManager -/

/-- Kind of a stored slot entry; the manager only ever stores these two. -/
inductive SlotType
  | reserved
  | confirmed
deriving DecidableEq

/-- A value of the bookedSlots map: reserved entries carry an expiry
instant, confirmed ones do not; `date` is the exact requested instant
(reserveSlot stores date.toISOString(), not the bucket). -/
structure SlotEntry where
  type : SlotType
  sessionId : String
  expiresAt : Option Int
  date : Int
deriving DecidableEq

/-- The bookedSlots map. The source keys it by the ISO-8601 rendering of
the bucket instant; the rendering is injective, so the bucket instant
itself serves as the key. -/
abbrev SlotMap := List (Int × SlotEntry)

/-- Business-hours table (AppointmentSlotManager.businessHours) as minutes
of the day: (open, close, break intervals); `none` means closed all day.
Weekdays are numbered as by `jsGetDay` (0 = Sunday). -/
def businessHoursFor (wd : Int) : Option (Int × Int × List (Int × Int)) :=
  if wd = 1 ∨ wd = 2 ∨ wd = 3 ∨ wd = 4 then some (540, 1080, [(720, 780)])
  else if wd = 5 then some (540, 1020, [(720, 780)])
  else if wd = 6 then some (600, 840, [])
  else none

/-- Minutes of the day of instant `t` (composition of getTimeString and
timeToMinutes in the source). -/
def minutesOfDay (t : Int) : Int := jsGetHours t * 60 + jsGetMinutes t

/-- AppointmentSlotManager.isBusinessHour, with the day name and HH:MM
string replaced by the weekday number and minutes of the day they denote. -/
def isBusinessHour (wd minutes : Int) : Bool :=
  match businessHoursFor wd with
  | none => false
  | some hours =>
    if minutes < hours.1 ∨ hours.2.1 ≤ minutes then false
    else if hours.2.2.any fun br => decide (br.1 ≤ minutes) && decide (minutes < br.2)
    then false
    else true

/-- AppointmentSlotManager.getSlotKey: the enclosing 30-minute bucket
(minutes floored to a multiple of 30, seconds and milliseconds zeroed). -/
def getSlotKey (t : Int) : Int :=
  jsDayStart t + jsGetHours t * 3600000 + (jsGetMinutes t).ediv 30 * 30 * 60000

/-- AppointmentSlotManager.isSlotBooked: re-validates reservation expiry at
read time, lazily deleting an expired reservation at the key and reporting
the slot free in that case. -/
def isSlotBooked (slots : SlotMap) (now k : Int) : Bool × SlotMap :=
  match mget k slots with
  | none => (false, slots)
  | some booking =>
    match booking.type, booking.expiresAt with
    | SlotType.reserved, some x =>
      if x < now then (false, mdel k slots) else (true, slots)
    | _, _ => (true, slots)

/-- AppointmentSlotManager.hasConflictWithBuffer: buffered-overlap test of
the requested instant (slotDuration = 30 min, bufferTime = 10 min) against
every stored booking, regardless of reservation expiry. -/
def hasConflictWithBuffer (slots : SlotMap) (t : Int) : Bool :=
  slots.any fun p =>
    decide ((p.2.type = SlotType.confirmed ∨ p.2.type = SlotType.reserved) ∧
      t - 10 * 60000 < p.2.date + 30 * 60000 ∧
      t + (30 + 10) * 60000 > p.2.date)

/-- AppointmentSlotManager.getDailyAppointmentCount: number of stored
bookings (of either type, regardless of expiry) whose date lies within the
calendar day of `t`. -/
def getDailyAppointmentCount (slots : SlotMap) (t : Int) : Nat :=
  (slots.filter fun p =>
    decide (jsDayStart t ≤ p.2.date ∧ p.2.date ≤ jsDayStart t + 86399999)).length

/-- AppointmentSlotManager.assignVeterinarian: round-robin by day of
month. -/
def assignVeterinarian (t : Int) : String :=
  let vets := ["Dr. Smith", "Dr. Johnson", "Dr. Williams"]
  vets.getD ((jsGetDate t).emod 3).toNat "Dr. Smith"

/-- Models reading the `available` property of the un-awaited Promise that
the async checkAvailability returns inside the suggestion loops: a property
access on a pending Promise yields `undefined`, which is falsy, so the test
never succeeds. (The source forgets `await` at both probe sites.) -/
def promiseAvailableTruthy : Bool := false

/-- AppointmentSlotManager.getNearbyAvailableSlots: walks the fixed offset
list and pushes a probe only when `availability.available` is truthy;
because the nested async call is not awaited (`promiseAvailableTruthy`),
nothing is ever pushed. Effects of the eagerly started nested computation
are outside this model. -/
def getNearbyAvailableSlots (t : Int) (count : Nat) : List Int :=
  let searchOffsets : List Int :=
    [30, -30, 60, -60, 90, -90, 120, -120, 24*60, -(24*60), 48*60, -(48*60)]
  searchOffsets.foldl
    (fun acc offsetMinutes =>
      if count ≤ acc.length then acc
      else
        let testDate := t + offsetMinutes * 60000
        if promiseAvailableTruthy then acc ++ [testDate] else acc)
    []

/-- Loop body of AppointmentSlotManager.getNextAvailableSlots. In the
source this is an unbounded while loop that exits only after collecting
`count` suggestions; since no probe is ever recognised as available
(`promiseAvailableTruthy`), the loop never exits. The fuel argument bounds
the observation; the accumulated (always empty) list is returned when it
runs out. -/
def getNextAvailableSlotsGo (count : Nat) (fuel : Nat) (t : Int) (acc : List Int) :
    List Int :=
  match fuel with
  | 0 => acc
  | fuel' + 1 =>
    if count ≤ acc.length then acc
    else
      let t1 := t + 30 * 60000
      let t2 :=
        if 18 ≤ jsGetHours t1 then jsSetHours (jsSetDate t1 (jsGetDate t1 + 1)) 9 0 0 0
        else t1
      if promiseAvailableTruthy then getNextAvailableSlotsGo count fuel' t2 (acc ++ [t2])
      else getNextAvailableSlotsGo count fuel' t2 acc

/-- AppointmentSlotManager.getNextAvailableSlots (fuelled, see
`getNextAvailableSlotsGo`). -/
def getNextAvailableSlots (fuel : Nat) (t : Int) (count : Nat) : List Int :=
  getNextAvailableSlotsGo count fuel t []

/-- AppointmentSlotManager.getNextDaySlots. -/
def getNextDaySlots (fuel : Nat) (t : Int) : List Int :=
  getNextAvailableSlots fuel (jsSetHours (jsSetDate t (jsGetDate t + 1)) 9 0 0 0) 3

/-- Reason of an unavailable verdict of checkAvailability. -/
inductive AvailReason
  | outside_business_hours
  | slot_taken
  | too_close_to_existing
  | day_fully_booked
deriving DecidableEq

/-- Verdict of checkAvailability. The user-facing message strings are not
modelled. -/
structure AvailResult where
  available : Bool
  reason : Option AvailReason
  suggestedSlots : List Int
  veterinarian : Option String
deriving DecidableEq

/-- AppointmentSlotManager.checkAvailability: the four-check cascade
(business hours, slot taken, buffer conflict, daily capacity of 20); the
slot-taken check lazily deletes an expired reservation in the own bucket
of `t`, so a possibly updated map is returned alongside the verdict.
`fuel` feeds the divergent next-slot search of the closed/full branches. -/
def checkAvailability (slots : SlotMap) (now t : Int) (fuel : Nat) :
    AvailResult × SlotMap :=
  if !isBusinessHour (jsGetDay t) (minutesOfDay t) then
    (⟨false, some AvailReason.outside_business_hours,
      getNextAvailableSlots fuel t 3, none⟩, slots)
  else
    let booked := isSlotBooked slots now (getSlotKey t)
    if booked.1 then
      (⟨false, some AvailReason.slot_taken, getNearbyAvailableSlots t 3, none⟩,
        booked.2)
    else if hasConflictWithBuffer booked.2 t then
      (⟨false, some AvailReason.too_close_to_existing,
        getNearbyAvailableSlots t 3, none⟩, booked.2)
    else if 20 ≤ getDailyAppointmentCount booked.2 t then
      (⟨false, some AvailReason.day_fully_booked, getNextDaySlots fuel t, none⟩,
        booked.2)
    else
      (⟨true, none, [], some (assignVeterinarian t)⟩, booked.2)

/-- AppointmentSlotManager.reserveSlot: unconditionally writes a reserved
entry (expiry now + 5 minutes) at the 30-minute bucket key and returns the
key. The setTimeout auto-release is a separate later event, modelled by a
releaseReservation call at its firing time. -/
def reserveSlot (slots : SlotMap) (now t : Int) (sessionId : String) :
    Int × SlotMap :=
  let slotKey := getSlotKey t
  (slotKey,
    mset slotKey ⟨SlotType.reserved, sessionId, some (now + 5 * 60 * 1000), t⟩ slots)

/-- AppointmentSlotManager.confirmReservation: throws on a missing or
foreign entry at the key, otherwise converts the entry to a confirmed
one. -/
def confirmReservation (slots : SlotMap) (slotKey : Int) (sessionId : String) :
    Except Unit SlotMap :=
  match mget slotKey slots with
  | none => Except.error ()
  | some reservation =>
    if reservation.sessionId ≠ sessionId then Except.error ()
    else
      Except.ok
        (mset slotKey ⟨SlotType.confirmed, sessionId, none, reservation.date⟩ slots)

/-- AppointmentSlotManager.releaseReservation: removes the entry only if it
is still a reservation owned by the given session; no-op otherwise. -/
def releaseReservation (slots : SlotMap) (slotKey : Int) (sessionId : String) :
    SlotMap :=
  match mget slotKey slots with
  | some reservation =>
    if reservation.type = SlotType.reserved ∧ reservation.sessionId = sessionId
    then mdel slotKey slots
    else slots
  | none => slots

/-- Body of the hourly sweep installed by startCleanupInterval: drops
bookings whose stored date is more than 24 hours in the past and
reservations past their expiry. -/
def cleanupSweep (slots : SlotMap) (now : Int) : SlotMap :=
  slots.filter fun p =>
    !(decide (p.2.date < now - 24 * 60 * 60 * 1000) ||
      (decide (p.2.type = SlotType.reserved) &&
        (match p.2.expiresAt with
         | some x => decide (x < now)
         | none => false)))

/-! ## AppointmentService -/

/-- Numeric value of an ASCII digit character. -/
def digitVal (c : Char) : Nat := c.toNat - 48

/-- Whitespace-then-meridiem tail of the time pattern: any run of
whitespace followed by the letters am or pm (the input is already
lower-cased; the regex carries the i flag). -/
def wsMeridiem (s : List Char) : Option Bool :=
  match s.dropWhile Char.isWhitespace with
  | 'a' :: 'm' :: _ => some false
  | 'p' :: 'm' :: _ => some true
  | _ => none

/-- Optional colon-minutes group then tail of the time pattern, with the
backtracking order of the regex engine: the group is tried first, and on
failure the match is retried without it. -/
def colonTail (s : List Char) : Option (Nat × Bool) :=
  match s with
  | ':' :: m1 :: m2 :: rest =>
    if m1.isDigit ∧ m2.isDigit then
      match wsMeridiem rest with
      | some pm => some (digitVal m1 * 10 + digitVal m2, pm)
      | none =>
        match wsMeridiem s with
        | some pm => some (0, pm)
        | none => none
    else
      match wsMeridiem s with
      | some pm => some (0, pm)
      | none => none
  | _ =>
    match wsMeridiem s with
    | some pm => some (0, pm)
    | none => none

/-- One attempt of the time pattern at the current position: one or two
digits (greedy, two first), then `colonTail`. Returns (hours, minutes,
pm). -/
def timeMatchAt (s : List Char) : Option (Nat × Nat × Bool) :=
  match s with
  | c1 :: c2 :: rest =>
    if c1.isDigit then
      if c2.isDigit then
        match colonTail rest with
        | some mb => some (digitVal c1 * 10 + digitVal c2, mb.1, mb.2)
        | none =>
          match colonTail (c2 :: rest) with
          | some mb => some (digitVal c1, mb.1, mb.2)
          | none => none
      else
        match colonTail (c2 :: rest) with
        | some mb => some (digitVal c1, mb.1, mb.2)
        | none => none
    else none
  | [_] => none
  | [] => none

/-- Leftmost match of the time pattern
(one or two digits, optional colon and two-digit minutes, whitespace,
meridiem) used by every branch of validateDateTime. -/
def findTimeMatch : List Char → Option (Nat × Nat × Bool)
  | [] => none
  | c :: rest =>
    match timeMatchAt (c :: rest) with
    | some m => some m
    | none => findTimeMatch rest

/-- Meridiem adjustment shared by the branches of validateDateTime:
pm adds 12 except to 12, 12 am becomes 0. -/
def adjustHours (hours : Nat) (pm : Bool) : Nat :=
  if pm ∧ hours ≠ 12 then hours + 12
  else if !pm ∧ hours = 12 then 0
  else hours

/-- Rejection cause of validateDateTime (the three distinct user-facing
error messages of the source). -/
inductive DtError
  | notParseable
  | inPast
  | tooFarAhead
deriving DecidableEq

/-- Outcome of validateDateTime; the formatted display string is modelled
by the instant it displays. -/
inductive DtResult
  | valid (date : Int)
  | invalid (err : DtError)
deriving DecidableEq

/-- AppointmentService.validateDateTime. `dateParse` models the generic
ECMAScript date parser `new Date(string)` used by the fallback branches
(`none` = Invalid Date); `now` is the instant captured on entry. -/
def validateDateTime (dateParse : String → Option Int) (now : Int) (s : String) :
    DtResult :=
  let lowerStr := jsTrim (jsToLowerCase s.data)
  let inputDate : Option Int :=
    if jsIncludes lowerStr "tomorrow".data then
      let base := jsSetDate now (jsGetDate now + 1)
      match findTimeMatch lowerStr with
      | some tm => some (jsSetHours base (adjustHours tm.1 tm.2.2) tm.2.1 0 0)
      | none => some (jsSetHours base 10 0 0 0)
    else if jsIncludes lowerStr "next".data then
      let days := ["sunday", "monday", "tuesday", "wednesday", "thursday",
        "friday", "saturday"]
      match days.findIdx? (fun d => jsIncludes lowerStr d.data) with
      | some targetDay =>
        let daysToAdd0 := (targetDay : Int) - jsGetDay now
        let daysToAdd := if daysToAdd0 ≤ 0 then daysToAdd0 + 7 else daysToAdd0
        let base := jsSetDate now (jsGetDate now + daysToAdd)
        match findTimeMatch lowerStr with
        | some tm => some (jsSetHours base (adjustHours tm.1 tm.2.2) tm.2.1 0 0)
        | none => some (jsSetHours base 10 0 0 0)
      | none => dateParse s
    else if jsIncludes lowerStr "today".data then
      match findTimeMatch lowerStr with
      | some tm => some (jsSetHours now (adjustHours tm.1 tm.2.2) tm.2.1 0 0)
      | none => some (jsSetHours now (jsGetHours now + 2) 0 0 0)
    else dateParse s
  match inputDate with
  | none => DtResult.invalid DtError.notParseable
  | some d =>
    if d ≤ now then DtResult.invalid DtError.inPast
    else if jsSetMonth now (jsGetMonth now + 6) < d then
      DtResult.invalid DtError.tooFarAhead
    else DtResult.valid d

/-- AppointmentService.validatePhone: strip all non-digits and require
exactly 10 digits; returns the cleaned digit string on success. -/
def validatePhone (phone : String) : Option String :=
  let cleaned := phone.data.filter Char.isDigit
  if cleaned.length ≠ 10 then none else some (String.mk cleaned)

/-- Booking-intent phrase list of AppointmentService.detectBookingIntent. -/
def bookingPhrases : List String :=
  ["book an appointment", "book appointment", "schedule appointment",
   "make appointment", "book a visit", "schedule a visit", "see a vet",
   "visit vet", "need appointment", "want appointment", "appointment please",
   "book consultation", "schedule consultation", "need to see vet",
   "want to see vet", "i want to book", "i need to book", "can i book",
   "like to book", "make a booking", "schedule vet"]

/-- AppointmentService.detectBookingIntent: case-insensitive substring
match against the fixed phrase list. -/
def detectBookingIntent (message : String) : Bool :=
  let lowerMessage := jsToLowerCase message.data
  bookingPhrases.any fun phrase => jsIncludes lowerMessage phrase.data

/-- AppointmentService.detectCancelIntent: case-insensitive substring
match against the cancellation lexicon. -/
def detectCancelIntent (message : String) : Bool :=
  let cancelPhrases := ["cancel", "stop", "nevermind", "forget it", "exit"]
  let lowerMessage := jsToLowerCase message.data
  cancelPhrases.any fun phrase => jsIncludes lowerMessage phrase.data

/-- The appointmentState values of the conversation record. -/
inductive BookingState
  | NONE
  | ASK_OWNER_NAME
  | ASK_PET_NAME
  | ASK_PHONE
  | ASK_DATE_TIME
  | CONFIRMATION
  | COMPLETED
deriving DecidableEq

/-- Next-state component of AppointmentService.getNextQuestion (question
texts are not modelled); `none` models the null default branch. -/
def getNextQuestionState : BookingState → Option BookingState
  | BookingState.ASK_OWNER_NAME => some BookingState.ASK_PET_NAME
  | BookingState.ASK_PET_NAME => some BookingState.ASK_PHONE
  | BookingState.ASK_PHONE => some BookingState.ASK_DATE_TIME
  | BookingState.ASK_DATE_TIME => some BookingState.CONFIRMATION
  | BookingState.CONFIRMATION => some BookingState.COMPLETED
  | BookingState.COMPLETED => some BookingState.NONE
  | BookingState.NONE => none

/-- The appointmentData draft accumulated by the booking flow; the display
string preferredDateTime is modelled by the instant it displays. -/
structure AppointmentData where
  ownerName : Option String := none
  petName : Option String := none
  phone : Option String := none
  preferredDateTime : Option Int := none
  appointmentDate : Option Int := none
  slotKey : Option Int := none
deriving DecidableEq

/-- Result record of AppointmentService.processBookingResponse (the
errorMessage text is not modelled, only its presence via isValid). -/
structure BookingResponse where
  data : AppointmentData
  isValid : Bool
  confirmed : Bool
  cancelled : Bool
deriving DecidableEq

/-- AppointmentService.processBookingResponse: validates the answer to the
question previously asked (the state names the question just asked — the
off-by-one binding preserved from the source) and stores it in the
draft. -/
def processBookingResponse (dateParse : String → Option Int) (now : Int)
    (state : BookingState) (userMessage : String)
    (appointmentData : AppointmentData) : BookingResponse :=
  match state with
  | BookingState.ASK_PET_NAME =>
    if (jsTrim userMessage.data).length < 2 then ⟨appointmentData, false, false, false⟩
    else
      ⟨{ appointmentData with ownerName := some (String.mk (jsTrim userMessage.data)) },
        true, false, false⟩
  | BookingState.ASK_PHONE =>
    if (jsTrim userMessage.data).length < 1 then ⟨appointmentData, false, false, false⟩
    else
      ⟨{ appointmentData with petName := some (String.mk (jsTrim userMessage.data)) },
        true, false, false⟩
  | BookingState.ASK_DATE_TIME =>
    match validatePhone userMessage with
    | none => ⟨appointmentData, false, false, false⟩
    | some cleaned => ⟨{ appointmentData with phone := some cleaned }, true, false, false⟩
  | BookingState.CONFIRMATION =>
    let dateTimeInput := jsTrim userMessage.data
    if dateTimeInput.length < 3 then ⟨appointmentData, false, false, false⟩
    else
      match validateDateTime dateParse now (String.mk dateTimeInput) with
      | DtResult.invalid _ => ⟨appointmentData, false, false, false⟩
      | DtResult.valid d =>
        ⟨{ appointmentData with preferredDateTime := some d, appointmentDate := some d },
          true, false, false⟩
  | BookingState.COMPLETED =>
    let lowerMessage := String.mk (jsTrim (jsToLowerCase userMessage.data))
    if lowerMessage = "yes" ∨ lowerMessage = "confirm" ∨ lowerMessage = "y" then
      ⟨appointmentData, true, true, false⟩
    else if lowerMessage = "no" ∨ lowerMessage = "cancel" ∨ lowerMessage = "n" then
      ⟨{}, true, false, true⟩
    else ⟨appointmentData, false, false, false⟩
  | BookingState.NONE => ⟨appointmentData, true, false, false⟩
  | BookingState.ASK_OWNER_NAME => ⟨appointmentData, true, false, false⟩

/-! ## ChatController -/

/-- The persisted conversation fields the booking flow reads and writes
(messages and context are not modelled). -/
structure Conversation where
  appointmentState : BookingState
  appointmentData : AppointmentData
deriving DecidableEq

/-- State after one ChatController.handleMessage turn: the saved
conversation and the shared bookedSlots map (reply texts are not
modelled). -/
structure HandlerResult where
  conversation : Conversation
  slots : SlotMap
deriving DecidableEq

/-- ChatController.handleMessage restricted to the state it mutates. The
question-answering path (cache plus Gemini) leaves both components
untouched and is represented by its identity effect; a confirmReservation
throw propagates to the catch-all handler (Except.error), in which case
the conversation is not saved. -/
def handleMessage (dateParse : String → Option Int) (now : Int)
    (conversation : Conversation) (sessionId message : String)
    (slots : SlotMap) : Except Unit HandlerResult :=
  let state := conversation.appointmentState
  if state ≠ BookingState.NONE ∧ state ≠ BookingState.COMPLETED ∧
      detectCancelIntent message then
    Except.ok ⟨⟨BookingState.NONE, {}⟩, slots⟩
  else if state ≠ BookingState.NONE then
    if state = BookingState.COMPLETED then
      let lowerMessage := String.mk (jsTrim (jsToLowerCase message.data))
      if lowerMessage = "yes" ∨ lowerMessage = "confirm" ∨ lowerMessage = "y" then
        match conversation.appointmentData.slotKey with
        | some slotKey =>
          match confirmReservation slots slotKey sessionId with
          | Except.error _ => Except.error ()
          | Except.ok slots1 =>
            Except.ok ⟨⟨BookingState.NONE, conversation.appointmentData⟩, slots1⟩
        | none =>
          Except.ok ⟨⟨BookingState.NONE, conversation.appointmentData⟩, slots⟩
      else if lowerMessage = "no" ∨ lowerMessage = "cancel" ∨ lowerMessage = "n" then
        Except.ok ⟨⟨BookingState.NONE, {}⟩, slots⟩
      else Except.ok ⟨conversation, slots⟩
    else
      let bookingResponse :=
        processBookingResponse dateParse now state message conversation.appointmentData
      if !bookingResponse.isValid then Except.ok ⟨conversation, slots⟩
      else
        match state, bookingResponse.data.appointmentDate with
        | BookingState.CONFIRMATION, some appointmentDate =>
          let availability := checkAvailability slots now appointmentDate 0
          if !availability.1.available then
            Except.ok ⟨⟨state, bookingResponse.data⟩, availability.2⟩
          else
            let reserved := reserveSlot availability.2 now appointmentDate sessionId
            match getNextQuestionState state with
            | some nextState =>
              Except.ok
                ⟨⟨nextState, { bookingResponse.data with slotKey := some reserved.1 }⟩,
                  reserved.2⟩
            | none => Except.error ()
        | _, _ =>
          match getNextQuestionState state with
          | some nextState => Except.ok ⟨⟨nextState, bookingResponse.data⟩, slots⟩
          | none => Except.error ()
  else if detectBookingIntent message then
    match getNextQuestionState BookingState.ASK_OWNER_NAME with
    | some nextState =>
      Except.ok ⟨⟨nextState, conversation.appointmentData⟩, slots⟩
    | none => Except.error ()
  else Except.ok ⟨conversation, slots⟩

/-! ## CacheService -/

/-- A cache entry as stored in the tiers of CacheService. -/
structure CacheEntry (α : Type) where
  value : α
  timestamp : Nat
  ttl : Nat
  hits : Nat
  lastAccessed : Nat
deriving DecidableEq

/-- The two live tiers of CacheService (the cold tier is null in the
source). -/
structure CacheState (α : Type) where
  l1 : List (String × CacheEntry α)
  l2 : List (String × CacheEntry α)
deriving DecidableEq

/-- Collapse every maximal whitespace run to a single space: the
replace step of generateKey. -/
def collapseWsGo (prevWs : Bool) : List Char → List Char
  | [] => []
  | c :: rest =>
    if c.isWhitespace then
      if prevWs then collapseWsGo true rest else ' ' :: collapseWsGo true rest
    else c :: collapseWsGo false rest

/-- Replace every maximal whitespace run by one space. -/
def collapseWs (s : List Char) : List Char := collapseWsGo false s

/-- CacheService.generateKey on string keys: lower-case, trim, collapse
whitespace, hash. The MD5 digest is injective on the inputs considered
and is modelled by the normalized string itself. -/
def generateKey (input : String) : String :=
  String.mk (collapseWs (jsTrim (jsToLowerCase input.data)))

/-- CacheService.isExpired: age strictly beyond the ttl. Subtraction is
truncated, which matches the JavaScript comparison whenever the clock does
not run backwards past the insertion instant. -/
def isExpired {α : Type} (entry : CacheEntry α) (now : Nat) : Bool :=
  entry.ttl < now - entry.timestamp

/-- CacheService.checkLayers: first tier containing the key wins; the
found entry has its hit count and last-access time updated in place. -/
def checkLayers {α : Type} (st : CacheState α) (now : Nat) (key : String) :
    Option (CacheEntry α) × CacheState α :=
  match mget key st.l1 with
  | some entry =>
    let entry1 := { entry with hits := entry.hits + 1, lastAccessed := now }
    (some entry1, { st with l1 := mset key entry1 st.l1 })
  | none =>
    match mget key st.l2 with
    | some entry =>
      let entry1 := { entry with hits := entry.hits + 1, lastAccessed := now }
      (some entry1, { st with l2 := mset key entry1 st.l2 })
    | none => (none, st)

/-- Victim-selection loop of CacheService.evictLRU: the first entry
holding the strictly smallest lastAccessed value. -/
def lruScan {α : Type} :
    List (String × CacheEntry α) → Option (String × Nat) → Option (String × Nat)
  | [], acc => acc
  | p :: rest, acc =>
    match acc with
    | none => lruScan rest (some (p.1, p.2.lastAccessed))
    | some a =>
      if p.2.lastAccessed < a.2 then lruScan rest (some (p.1, p.2.lastAccessed))
      else lruScan rest (some a)

/-- CacheService.evictLRU on the warm tier: the victim is discarded
permanently. -/
def evictLRUL2 {α : Type} (st : CacheState α) : CacheState α :=
  match lruScan st.l2 none with
  | none => st
  | some v => { st with l2 := mdel v.1 st.l2 }

/-- CacheService.evictLRU on the hot tier: the victim is demoted into the
warm tier (which in turn evicts when beyond its capacity of 500) and then
removed from the hot tier. -/
def evictLRUL1 {α : Type} (st : CacheState α) : CacheState α :=
  match lruScan st.l1 none with
  | none => st
  | some v =>
    match mget v.1 st.l1 with
    | some entry =>
      let st1 := { st with l2 := mset v.1 entry st.l2 }
      let st2 := if 500 < st1.l2.length then evictLRUL2 st1 else st1
      { st2 with l1 := mdel v.1 st2.l1 }
    | none => { st with l1 := mdel v.1 st.l1 }

/-- CacheService.set: insert a fresh entry into the hot tier and evict if
its capacity of 100 is now exceeded. -/
def cacheSet {α : Type} (st : CacheState α) (now : Nat) (key : String)
    (value : α) (ttl : Nat) : CacheState α :=
  let st1 := { st with l1 := mset key ⟨value, now, ttl, 0, now⟩ st.l1 }
  if 100 < st1.l1.length then evictLRUL1 st1 else st1

/-- CacheService.promote: an entry with more than 5 hits that is not
already hot is moved into the hot tier (delete from warm, evict hot if
needed). -/
def promote {α : Type} (st : CacheState α) (key : String)
    (entry : CacheEntry α) : CacheState α :=
  if 5 < entry.hits ∧ (mget key st.l1).isNone then
    let st1 := { st with l1 := mset key entry st.l1, l2 := mdel key st.l2 }
    if 100 < st1.l1.length then evictLRUL1 st1 else st1
  else st

/-- CacheService.get. The generator is modelled by its outcome
(Except.error = the awaited call rejects); the Bool of the result records
whether the generator was invoked. `ttlOpt` models `options.ttl`, which
falls back to the 3600000 ms default when absent or zero (JavaScript
falsy-or). -/
def cacheGet {α : Type} (st : CacheState α) (now : Nat) (key : String)
    (generator : Except Unit α) (ttlOpt : Option Nat) :
    Except Unit α × Bool × CacheState α :=
  let cacheKey := generateKey key
  let ttl :=
    match ttlOpt with
    | some t => if t ≠ 0 then t else 3600000
    | none => 3600000
  let looked := checkLayers st now cacheKey
  match looked.1 with
  | some cached =>
    if !isExpired cached now then
      (Except.ok cached.value, false, promote looked.2 cacheKey cached)
    else
      match generator with
      | Except.ok value =>
        (Except.ok value, true, cacheSet looked.2 now cacheKey value ttl)
      | Except.error _ => (Except.ok cached.value, true, looked.2)
  | none =>
    match generator with
    | Except.ok value =>
      (Except.ok value, true, cacheSet looked.2 now cacheKey value ttl)
    | Except.error e => (Except.error e, true, looked.2)

/-! ## Similarity -/

/-- Cell (i, j) of the dynamic-programming matrix built by
CacheService.calculateSimilarity: matrix[i][j] is filled by exactly this
recurrence in the source loops (matrix[i][0] = i, matrix[0][j] = j,
comparison of str2[i-1] with str1[j-1]). -/
def levMatrix (str1 str2 : List Char) : Nat → Nat → Nat
  | 0, j => j
  | i + 1, 0 => i + 1
  | i + 1, j + 1 =>
    if str2.getD i ' ' = str1.getD j ' ' then levMatrix str1 str2 i j
    else
      Nat.min (levMatrix str1 str2 i j + 1)
        (Nat.min (levMatrix str1 str2 (i + 1) j + 1)
          (levMatrix str1 str2 i (j + 1) + 1))
termination_by i j => i + j

/-- CacheService.calculateSimilarity: 1 − distance / maxLen, with the
early zero returns for empty inputs. -/
def calculateSimilarity (str1 str2 : String) : ℚ :=
  let len1 := str1.length
  let len2 := str2.length
  if len1 = 0 then 0
  else if len2 = 0 then 0
  else 1 - (levMatrix str1.data str2.data len2 len1 : ℚ) / (max len1 len2 : ℚ)

/-- Unit-cost Levenshtein edit distance (insert, delete and substitute
each cost 1), in its textbook recursive form; the reference definition for
the similarity claims. -/
def editDistance : List Char → List Char → Nat
  | [], ys => ys.length
  | x :: xs, [] => (x :: xs).length
  | x :: xs, y :: ys =>
    if x = y then editDistance xs ys
    else
      1 + Nat.min (editDistance xs ys)
        (Nat.min (editDistance (x :: xs) ys) (editDistance xs (y :: ys)))


deriving instance DecidableEq for Except

/-! ## Concrete instances used by the claim theorems -/

/-- Round-trip property of the civil-calendar model at day number `D`
(true of every integer; stated per instance so that witnesses can
discharge it by evaluation). -/
abbrev calendarRoundTrip (D : Int) : Prop :=
  daysOfMonthStart (civilFromDays D).1 (civilFromDays D).2.1 +
    ((civilFromDays D).2.2 - 1) = D

/-- Slot map holding one live reservation of session s1 for Monday
2026-01-05 10:00 UTC (bucket-aligned), expiring at 10:05. -/
def c1Slots : SlotMap :=
  [(1767607200000, ⟨SlotType.reserved, "s1", some 1767607500000, 1767607200000⟩)]

/-- Slot map holding one confirmed booking at Wednesday 2026-01-07
15:00 UTC (bucket-aligned). -/
def c3Slots : SlotMap :=
  [(1767884400000, ⟨SlotType.confirmed, "s1", none, 1767884400000⟩)]

/-- Slot map holding one confirmed booking at Monday 2026-01-05
10:00 UTC (bucket-aligned). -/
def c2Slots : SlotMap :=
  [(1767607200000, ⟨SlotType.confirmed, "s1", none, 1767607200000⟩)]

/-! ## Map lemmas -/

/-- Keys of an association map, in iteration order. -/
def mkeys {κ ν : Type} (l : List (κ × ν)) : List κ := l.map Prod.fst

@[simp] theorem mkeys_nil {κ ν : Type} : mkeys ([] : List (κ × ν)) = [] := rfl

@[simp] theorem mkeys_cons {κ ν : Type} (p : κ × ν) (l : List (κ × ν)) :
    mkeys (p :: l) = p.1 :: mkeys l := rfl

theorem mget_mset_self {κ ν : Type} [DecidableEq κ] (k : κ) (v : ν)
    (l : List (κ × ν)) : mget k (mset k v l) = some v := by
  induction l with
  | nil => simp [mset, mget]
  | cons p rest ih =>
    by_cases h : p.1 = k
    · simp [mset, mget, h]
    · simp [mset, mget, h, ih]

theorem mget_mset_ne {κ ν : Type} [DecidableEq κ] {k k' : κ} (v : ν)
    (l : List (κ × ν)) (h : k' ≠ k) : mget k' (mset k v l) = mget k' l := by
  have h2 : ¬(k = k') := fun hh => h hh.symm
  induction l with
  | nil => simp [mset, mget, h2]
  | cons p rest ih =>
    by_cases hp : p.1 = k
    · have h3 : ¬(p.1 = k') := by rw [hp]; exact h2
      simp [mset, mget, hp, h2, h3]
    · simp [mset, mget, hp, ih]

theorem mget_mdel_ne {κ ν : Type} [DecidableEq κ] {k k' : κ}
    (l : List (κ × ν)) (h : k' ≠ k) : mget k' (mdel k l) = mget k' l := by
  induction l with
  | nil => simp [mdel]
  | cons p rest ih =>
    by_cases hp : p.1 = k
    · have h2 : ¬(k = k') := fun hh => h hh.symm
      have h3 : ¬(p.1 = k') := by rw [hp]; exact h2
      simp [mdel, mget, hp, h3, h2]
    · simp [mdel, mget, hp, ih]

theorem mget_eq_none_iff {κ ν : Type} [DecidableEq κ] (k : κ)
    (l : List (κ × ν)) : mget k l = none ↔ k ∉ mkeys l := by
  induction l with
  | nil => simp [mget]
  | cons p rest ih =>
    by_cases hp : p.1 = k
    · simp [mget, hp]
    · rw [mget]
      simp only [hp, if_false, mkeys_cons, List.mem_cons]
      rw [ih]
      constructor
      · intro hn hor
        rcases hor with hor | hor
        · exact hp hor.symm
        · exact hn hor
      · intro hn hm
        exact hn (Or.inr hm)

theorem mget_mdel_self {κ ν : Type} [DecidableEq κ] (k : κ)
    (l : List (κ × ν)) (h : (mkeys l).Nodup) : mget k (mdel k l) = none := by
  induction l with
  | nil => simp [mdel, mget]
  | cons p rest ih =>
    rw [mkeys_cons, List.nodup_cons] at h
    by_cases hp : p.1 = k
    · rw [mdel]
      simp only [hp, if_true]
      rw [mget_eq_none_iff]
      exact hp ▸ h.1
    · rw [mdel]
      simp only [hp, if_false]
      rw [mget]
      simp [hp, ih h.2]

theorem mkeys_mset_mem {κ ν : Type} [DecidableEq κ] (k : κ) (v : ν)
    (l : List (κ × ν)) : ∀ x ∈ mkeys (mset k v l), x ∈ mkeys l ∨ x = k := by
  induction l with
  | nil =>
    intro x hx
    simp [mset] at hx
    simp [hx]
  | cons p rest ih =>
    intro x hx
    by_cases hp : p.1 = k
    · simp only [mset, hp, if_true, mkeys_cons, List.mem_cons] at hx ⊢
      rcases hx with hx | hx
      · exact Or.inr hx
      · exact Or.inl (Or.inr hx)
    · simp only [mset, hp, if_false, mkeys_cons, List.mem_cons] at hx ⊢
      rcases hx with hx | hx
      · exact Or.inl (Or.inl hx)
      · rcases ih x hx with h2 | h2
        · exact Or.inl (Or.inr h2)
        · exact Or.inr h2

theorem mkeys_mset_nodup {κ ν : Type} [DecidableEq κ] (k : κ) (v : ν)
    (l : List (κ × ν)) (h : (mkeys l).Nodup) : (mkeys (mset k v l)).Nodup := by
  induction l with
  | nil => simp [mset]
  | cons p rest ih =>
    rw [mkeys_cons, List.nodup_cons] at h
    by_cases hp : p.1 = k
    · simp only [mset, hp, if_true, mkeys_cons, List.nodup_cons]
      exact ⟨hp ▸ h.1, h.2⟩
    · simp only [mset, hp, if_false, mkeys_cons, List.nodup_cons]
      refine ⟨fun hmem => ?_, ih h.2⟩
      rcases mkeys_mset_mem k v rest p.1 hmem with h2 | h2
      · exact h.1 h2
      · exact hp h2

theorem mkeys_mdel_sublist {κ ν : Type} [DecidableEq κ] (k : κ)
    (l : List (κ × ν)) : (mkeys (mdel k l)).Sublist (mkeys l) := by
  induction l with
  | nil => simp [mdel]
  | cons p rest ih =>
    by_cases hp : p.1 = k
    · simp only [mdel, hp, if_true, mkeys_cons]
      exact List.Sublist.cons _ (List.Sublist.refl _)
    · simp only [mdel, hp, if_false, mkeys_cons]
      exact ih.cons₂ p.1

theorem mkeys_mdel_nodup {κ ν : Type} [DecidableEq κ] (k : κ)
    (l : List (κ × ν)) (h : (mkeys l).Nodup) : (mkeys (mdel k l)).Nodup :=
  h.sublist (mkeys_mdel_sublist k l)

theorem mget_filter {κ ν : Type} [DecidableEq κ] (k : κ) (e : ν)
    (p : κ × ν → Bool) (l : List (κ × ν)) (hget : mget k l = some e)
    (hp : p (k, e) = true) : mget k (l.filter p) = some e := by
  induction l with
  | nil => simp [mget] at hget
  | cons q rest ih =>
    by_cases hq : q.1 = k
    · rw [mget] at hget
      simp only [hq, if_true, Option.some.injEq] at hget
      have hqe : q = (k, e) := by
        rcases q with ⟨q1, q2⟩
        simp only at hq hget
        rw [hq, hget]
      rw [hqe, List.filter_cons]
      simp only [hp, if_true]
      simp [mget]
    · rw [mget] at hget
      simp only [hq, if_false] at hget
      rw [List.filter_cons]
      cases hpq : p q with
      | true =>
        simp only [if_true]
        rw [mget]
        simp only [hq, if_false]
        exact ih hget
      | false =>
        simp only [Bool.false_eq_true, if_false]
        exact ih hget

/-! ## Claim C5 -/

/-- C5: an expired reservation is never reported as booked. If the entry
at a slot key is a reservation whose expiry lies strictly before the read
instant, isSlotBooked reports the slot free and removes the entry; an
absent entry (e.g. one already removed by the timed release) is likewise
free — so the verdict is independent of whether the scheduled release
fired. -/
theorem c5_expired_reservation_not_booked (slots : SlotMap) (now k x : Int)
    (e : SlotEntry) (hget : mget k slots = some e)
    (htype : e.type = SlotType.reserved) (hexp : e.expiresAt = some x)
    (hlt : x < now) :
    (isSlotBooked slots now k).1 = false ∧
      (isSlotBooked slots now k).2 = mdel k slots ∧
      ∀ slots2 : SlotMap, mget k slots2 = none →
        (isSlotBooked slots2 now k).1 = false := by
  obtain ⟨ty, sid, ex, d⟩ := e
  simp only at htype hexp
  subst htype hexp
  refine ⟨?_, ?_, ?_⟩
  · simp [isSlotBooked, hget, hlt]
  · simp [isSlotBooked, hget, hlt]
  · intro slots2 h2
    simp [isSlotBooked, h2]

/-- Witness for C5 at a concrete expired reservation. -/
theorem c5_witness :
    (isSlotBooked c1Slots 1767607600000 1767607200000).1 = false ∧
      (isSlotBooked c1Slots 1767607600000 1767607200000).2 =
        mdel 1767607200000 c1Slots ∧
      ∀ slots2 : SlotMap, mget 1767607200000 slots2 = none →
        (isSlotBooked slots2 1767607600000 1767607200000).1 = false :=
  c5_expired_reservation_not_booked c1Slots 1767607600000 1767607200000
    1767607500000 ⟨SlotType.reserved, "s1", some 1767607500000, 1767607200000⟩
    (by decide) rfl rfl (by decide)

/-! ## Claim C10 -/

/-- C10: answering no, cancel or n in state COMPLETED resets the state to
NONE and clears the draft but performs no slot-manager call: the slot map
is returned unchanged, and any live reservation in it keeps making
isSlotBooked report the bucket as booked — for reads on behalf of any
session — at every instant up to its expiry. -/
theorem c10_completed_no_keeps_blocking (dateParse : String → Option Int)
    (now : Int) (conversation : Conversation) (sessionId message : String)
    (slots : SlotMap)
    (hstate : conversation.appointmentState = BookingState.COMPLETED)
    (hno : String.mk (jsTrim (jsToLowerCase message.data)) = "no" ∨
      String.mk (jsTrim (jsToLowerCase message.data)) = "cancel" ∨
      String.mk (jsTrim (jsToLowerCase message.data)) = "n") :
    handleMessage dateParse now conversation sessionId message slots =
      Except.ok ⟨⟨BookingState.NONE, {}⟩, slots⟩ ∧
    ∀ k x (e : SlotEntry), mget k slots = some e →
      e.type = SlotType.reserved → e.expiresAt = some x →
      ∀ now2 : Int, now2 ≤ x → (isSlotBooked slots now2 k).1 = true := by
  constructor
  · have hny : ¬(String.mk (jsTrim (jsToLowerCase message.data)) = "yes" ∨
        String.mk (jsTrim (jsToLowerCase message.data)) = "confirm" ∨
        String.mk (jsTrim (jsToLowerCase message.data)) = "y") := by
      rcases hno with h | h | h <;> rw [h] <;> decide
    simp [handleMessage, hstate, hny, hno]
  · intro k x e hget htype hexp now2 hle
    obtain ⟨ty, sid, ex, d⟩ := e
    simp only at htype hexp
    subst htype hexp
    have : ¬(x < now2) := by omega
    simp [isSlotBooked, hget, this]

/-- Witness for C10 at a concrete COMPLETED conversation and live
reservation. -/
theorem c10_witness :
    handleMessage (fun _ => none) 1767607300000
        ⟨BookingState.COMPLETED, { slotKey := some 1767607200000 }⟩ "s1" "no"
        c1Slots =
      Except.ok ⟨⟨BookingState.NONE, {}⟩, c1Slots⟩ ∧
    ∀ k x (e : SlotEntry), mget k c1Slots = some e →
      e.type = SlotType.reserved → e.expiresAt = some x →
      ∀ now2 : Int, now2 ≤ x → (isSlotBooked c1Slots now2 k).1 = true :=
  c10_completed_no_keeps_blocking (fun _ => none) 1767607300000
    ⟨BookingState.COMPLETED, { slotKey := some 1767607200000 }⟩ "s1" "no"
    c1Slots rfl (by decide)

/-! ## Claim C1 -/

/-- C1 fails on the code: a session in state ASK_PET_NAME that still owns
a live reservation (left over from a declined confirmation) sends
"cancel" while the reservation has not yet expired; the state is reset
and the draft cleared, but the reservation is not released — the
slot-manager map comes back untouched, still holding the live entry the
claim requires to be gone. -/
theorem c1_counterexample :
    handleMessage (fun _ => none) 1767607200000
        ⟨BookingState.ASK_PET_NAME, {}⟩ "s1" "cancel" c1Slots =
      Except.ok ⟨⟨BookingState.NONE, {}⟩, c1Slots⟩ ∧
    mget 1767607200000 c1Slots =
      some ⟨SlotType.reserved, "s1", some 1767607500000, 1767607200000⟩ ∧
    (1767607200000 : Int) < 1767607500000 := by decide

/-- C1 amended: in any state other than NONE and COMPLETED, a
cancellation-intent message resets the booking state to NONE and clears
the draft, but performs no slot-manager call — the shared slot map is
returned unchanged, so a reservation held by the session stays in place
until its expiry. -/
theorem c1_cancel_resets_without_release (dateParse : String → Option Int)
    (now : Int) (conversation : Conversation) (sessionId message : String)
    (slots : SlotMap)
    (h1 : conversation.appointmentState ≠ BookingState.NONE)
    (h2 : conversation.appointmentState ≠ BookingState.COMPLETED)
    (h3 : detectCancelIntent message = true) :
    handleMessage dateParse now conversation sessionId message slots =
      Except.ok ⟨⟨BookingState.NONE, {}⟩, slots⟩ := by
  simp [handleMessage, h1, h2, h3]

/-- Witness for the amended C1 at a concrete mid-flow cancellation. -/
theorem c1_witness :
    handleMessage (fun _ => none) 1767607200000
        ⟨BookingState.ASK_DATE_TIME, {}⟩ "s9" "forget it" c1Slots =
      Except.ok ⟨⟨BookingState.NONE, {}⟩, c1Slots⟩ :=
  c1_cancel_resets_without_release (fun _ => none) 1767607200000
    ⟨BookingState.ASK_DATE_TIME, {}⟩ "s9" "forget it" c1Slots
    (by decide) (by decide) (by decide)

/-! ## Claim C6 -/

/-- Lazy expiry deletion of isSlotBooked never removes a confirmed
entry. -/
theorem isSlotBooked_preserves_confirmed (slots : SlotMap) (now k k2 : Int)
    (e : SlotEntry) (hget : mget k slots = some e)
    (htype : e.type = SlotType.confirmed) :
    mget k (isSlotBooked slots now k2).2 = some e := by
  rw [isSlotBooked]
  rcases hg : mget k2 slots with _ | booking
  · exact hget
  · rcases booking with ⟨ty, sid2, ex, d⟩
    rcases ty with _ | _
    · rcases ex with _ | x
      · exact hget
      · by_cases hx : x < now
        · simp only [hx, if_true]
          have hne : k ≠ k2 := by
            intro hkk
            rw [hkk, hg] at hget
            cases hget
            simp at htype
          exact (mget_mdel_ne slots hne).trans hget
        · simp only [hx, if_false]
          exact hget
    · exact hget

/-- C6 fails on the code: reserveSlot writes its reserved entry with a
plain Map.set, displacing an existing confirmed booking at the same
bucket key — the confirmed entry is replaced, which the claim forbids. -/
theorem c6_counterexample :
    mget 1767607200000 c2Slots =
      some ⟨SlotType.confirmed, "s1", none, 1767607200000⟩ ∧
    (reserveSlot c2Slots 1767600000000 1767607200000 "s2").2 =
      [(1767607200000,
        ⟨SlotType.reserved, "s2", some 1767600300000, 1767607200000⟩)] := by decide

/-- C6 amended: every slot operation preserves key uniqueness (so at most
one entry per slot key); the cleanup sweep, releaseReservation, the lazy
expiry deletion of isSlotBooked / checkAvailability and (idempotent)
confirmReservation all keep a confirmed entry in place — but reserveSlot
overwrites its bucket key unconditionally, displacing even a confirmed
booking. -/
theorem c6_ops_preserve_confirmed (slots : SlotMap) (now : Int) :
    ((mkeys slots).Nodup →
      ∀ t : Int, ∀ sid : String, (mkeys (reserveSlot slots now t sid).2).Nodup) ∧
    ((mkeys slots).Nodup → ∀ k : Int, (mkeys (isSlotBooked slots now k).2).Nodup) ∧
    ((mkeys slots).Nodup →
      ∀ k : Int, ∀ sid : String, (mkeys (releaseReservation slots k sid)).Nodup) ∧
    ((mkeys slots).Nodup → ∀ k : Int, ∀ sid : String, ∀ slots2 : SlotMap,
      confirmReservation slots k sid = Except.ok slots2 → (mkeys slots2).Nodup) ∧
    ((mkeys slots).Nodup → (mkeys (cleanupSweep slots now)).Nodup) ∧
    (∀ k : Int, ∀ e : SlotEntry, mget k slots = some e →
      e.type = SlotType.confirmed → now - 24 * 60 * 60 * 1000 ≤ e.date →
      mget k (cleanupSweep slots now) = some e) ∧
    (∀ k k2 : Int, ∀ sid : String, ∀ e : SlotEntry, mget k slots = some e →
      e.type = SlotType.confirmed →
      mget k (releaseReservation slots k2 sid) = some e) ∧
    (∀ k k2 : Int, ∀ e : SlotEntry, mget k slots = some e →
      e.type = SlotType.confirmed →
      mget k (isSlotBooked slots now k2).2 = some e) ∧
    (∀ k t : Int, ∀ fuel : Nat, ∀ e : SlotEntry, mget k slots = some e →
      e.type = SlotType.confirmed →
      mget k (checkAvailability slots now t fuel).2 = some e) ∧
    (∀ k k2 : Int, ∀ sid : String, ∀ e : SlotEntry, ∀ slots2 : SlotMap,
      mget k slots = some e → e.type = SlotType.confirmed →
      e.expiresAt = none → confirmReservation slots k2 sid = Except.ok slots2 →
      mget k slots2 = some e) ∧
    (∀ t : Int, ∀ sid : String,
      mget (getSlotKey t) (reserveSlot slots now t sid).2 =
        some ⟨SlotType.reserved, sid, some (now + 5 * 60 * 1000), t⟩) := by
  refine ⟨?_, ?_, ?_, ?_, ?_, ?_, ?_, ?_, ?_, ?_, ?_⟩
  · intro h t sid
    exact mkeys_mset_nodup _ _ _ h
  · intro h k
    rw [isSlotBooked]
    rcases hg : mget k slots with _ | booking
    · exact h
    · rcases booking with ⟨ty, sid2, ex, d⟩
      rcases ty with _ | _
      · rcases ex with _ | x
        · exact h
        · by_cases hx : x < now
          · simp only [hx, if_true]
            exact mkeys_mdel_nodup _ _ h
          · simp only [hx, if_false]
            exact h
      · exact h
  · intro h k sid
    rw [releaseReservation]
    rcases hg : mget k slots with _ | r
    · exact h
    · by_cases hc : r.type = SlotType.reserved ∧ r.sessionId = sid
      · simp only [hc, if_true]
        exact mkeys_mdel_nodup _ _ h
      · simp only [hc, if_false]
        exact h
  · intro h k sid slots2 hok
    rw [confirmReservation] at hok
    split at hok
    · cases hok
    · split at hok
      · cases hok
      · injection hok with hs
        rw [← hs]
        exact mkeys_mset_nodup _ _ _ h
  · intro h
    refine h.sublist ?_
    exact List.Sublist.map Prod.fst (List.filter_sublist slots)
  · intro k e hget htype hdate
    refine mget_filter k e _ slots hget ?_
    rcases e with ⟨ty, sid2, ex, d⟩
    simp only at htype hdate
    subst htype
    simp
    omega
  · intro k k2 sid e hget htype
    rw [releaseReservation]
    rcases hg : mget k2 slots with _ | r
    · exact hget
    · by_cases hc : r.type = SlotType.reserved ∧ r.sessionId = sid
      · simp only [hc, if_true]
        have hne : k ≠ k2 := by
          intro hkk
          rw [hkk, hg] at hget
          cases hget
          rw [htype] at hc
          cases hc.1
        exact (mget_mdel_ne slots hne).trans hget
      · simp only [hc, if_false]
        exact hget
  · intro k k2 e hget htype
    exact isSlotBooked_preserves_confirmed slots now k k2 e hget htype
  · intro k t fuel e hget htype
    have hpres := isSlotBooked_preserves_confirmed slots now k (getSlotKey t) e hget htype
    rw [checkAvailability]
    split
    · exact hget
    · dsimp only
      split
      · exact hpres
      · split
        · exact hpres
        · split
          · exact hpres
          · exact hpres
  · intro k k2 sid e slots2 hget htype hexp hok
    rw [confirmReservation] at hok
    split at hok
    · cases hok
    · rename_i r hg
      split at hok
      · cases hok
      · rename_i hc
        injection hok with hs
        rw [← hs]
        by_cases hkk : k = k2
        · subst hkk
          rw [hg] at hget
          injection hget with her
          rw [her]
          have he2 : (⟨SlotType.confirmed, sid, none, e.date⟩ : SlotEntry) = e := by
            rw [her] at hc
            simp only [not_not] at hc
            rcases e with ⟨ty, sid3, ex, d⟩
            simp only at htype hexp hc
            rw [htype, hexp, hc]
          rw [he2, mget_mset_self]
        · rw [mget_mset_ne _ _ hkk]
          exact hget
  · intro t sid
    exact mget_mset_self _ _ _

/-- Witness for the amended C6 at a concrete confirmed booking. -/
theorem c6_witness :
    mget 1767607200000 (cleanupSweep c2Slots 1767600000000) =
      some ⟨SlotType.confirmed, "s1", none, 1767607200000⟩ ∧
    mget 1767607200000 (releaseReservation c2Slots 1767607200000 "s1") =
      some ⟨SlotType.confirmed, "s1", none, 1767607200000⟩ ∧
    mget (getSlotKey 1767607200000)
        (reserveSlot c2Slots 1767600000000 1767607200000 "s2").2 =
      some ⟨SlotType.reserved, "s2", some 1767600300000, 1767607200000⟩ := by
  obtain ⟨-, -, -, -, -, hB, hC, -, -, -, hF⟩ :=
    c6_ops_preserve_confirmed c2Slots 1767600000000
  refine ⟨hB 1767607200000 _ (by decide) rfl (by decide), ?_, hF 1767607200000 "s2"⟩
  exact hC 1767607200000 1767607200000 "s1" _ (by decide) rfl

/-! ## Claim C2 -/

/-- Characterisation of hasConflictWithBuffer: some stored entry starts
strictly within 40 minutes of the requested instant. -/
theorem hasConflictWithBuffer_iff (slots : SlotMap) (t : Int) :
    hasConflictWithBuffer slots t = true ↔
      ∃ p ∈ slots, p.2.date - 2400000 < t ∧ t < p.2.date + 2400000 := by
  rw [hasConflictWithBuffer, List.any_eq_true]
  constructor
  · rintro ⟨p, hp, hd⟩
    rw [decide_eq_true_eq] at hd
    exact ⟨p, hp, by omega, by omega⟩
  · rintro ⟨p, hp, h1, h2⟩
    refine ⟨p, hp, ?_⟩
    rw [decide_eq_true_eq]
    refine ⟨?_, by omega, by omega⟩
    cases hty : p.2.type
    · exact Or.inr rfl
    · exact Or.inl rfl

/-- C2 fails on the code: within business hours and with a free own
bucket, an instant 30 minutes BEFORE a live confirmed booking — outside
the interval [start − 10 min, start + 40 min] stated by the claim — is
still reported as too_close_to_existing, because hasConflictWithBuffer
tests the symmetric overlap of the buffered request window with the
booking window. -/
theorem c2_counterexample :
    isBusinessHour (jsGetDay 1767605400000) (minutesOfDay 1767605400000) = true ∧
    (isSlotBooked c2Slots 1767598200000 (getSlotKey 1767605400000)).1 = false ∧
    (checkAvailability c2Slots 1767598200000 1767605400000 0).1.reason =
      some AvailReason.too_close_to_existing ∧
    ¬(1767607200000 - 600000 ≤ (1767605400000 : Int) ∧
      (1767605400000 : Int) ≤ 1767607200000 + 2400000) := by decide

/-- C2 amended: for an instant within business hours whose own bucket the
slot-taken check reports free, checkAvailability reports
too_close_to_existing exactly when some entry of the (post-check) map —
reserved or confirmed, regardless of reservation expiry — has its start
strictly within 40 minutes of the instant: the instant lies in the OPEN
interval (start − 40 min, start + 40 min), i.e. the buffered request
window (t − 10, t + 40) overlaps the booked window (start, start + 30). -/
theorem c2_buffer_conflict_characterisation (slots : SlotMap) (now t : Int)
    (fuel : Nat)
    (hbh : isBusinessHour (jsGetDay t) (minutesOfDay t) = true)
    (hfree : (isSlotBooked slots now (getSlotKey t)).1 = false) :
    ((checkAvailability slots now t fuel).1.reason =
        some AvailReason.too_close_to_existing ↔
      ∃ p ∈ (isSlotBooked slots now (getSlotKey t)).2,
        p.2.date - 2400000 < t ∧ t < p.2.date + 2400000) := by
  rw [checkAvailability]
  rw [if_neg (by rw [hbh]; decide :
    ¬((!isBusinessHour (jsGetDay t) (minutesOfDay t)) = true))]
  dsimp only
  rw [if_neg (by rw [hfree]; decide :
    ¬((isSlotBooked slots now (getSlotKey t)).1 = true))]
  by_cases hconf :
      hasConflictWithBuffer (isSlotBooked slots now (getSlotKey t)).2 t = true
  · rw [if_pos hconf]
    exact iff_of_true rfl ((hasConflictWithBuffer_iff _ _).mp hconf)
  · rw [if_neg hconf]
    refine iff_of_false ?_ fun hex => hconf ((hasConflictWithBuffer_iff _ _).mpr hex)
    split
    · intro hco
      cases hco
    · intro hco
      cases hco

/-- Witness for the amended C2 at the concrete counterexample
configuration. -/
theorem c2_witness :
    ((checkAvailability c2Slots 1767598200000 1767605400000 0).1.reason =
        some AvailReason.too_close_to_existing ↔
      ∃ p ∈ (isSlotBooked c2Slots 1767598200000 (getSlotKey 1767605400000)).2,
        p.2.date - 2400000 < (1767605400000 : Int) ∧
        (1767605400000 : Int) < p.2.date + 2400000) :=
  c2_buffer_conflict_characterisation c2Slots 1767598200000 1767605400000 0
    (by decide) (by decide)

/-! ## Claim C3 -/

/-- The suggestion probe loop never pushes anything: since the nested
availability call is not awaited, `availability.available` is always
undefined (falsy), so getNearbyAvailableSlots returns the empty list for
every input. -/
theorem getNearbyAvailableSlots_empty (t : Int) (count : Nat) :
    getNearbyAvailableSlots t count = [] := by
  rw [getNearbyAvailableSlots]
  dsimp only
  rw [promiseAvailableTruthy]
  simp

/-- C3 fails on the code: with one booking at Wednesday 2026-01-07 15:00
UTC and that very instant requested, the verdict is slot_taken, yet the
returned suggestion list is empty — even though the availability cascade
itself rates the probed offsets +60 and −60 minutes as available. The
probe loop reads `available` off the un-awaited Promise of the async
checkAvailability, so no probe is ever recognised. -/
theorem c3_no_suggestions_despite_available_probes :
    (checkAvailability c3Slots 1767884400000 1767884400000 5).1.reason =
      some AvailReason.slot_taken ∧
    (checkAvailability c3Slots 1767884400000 1767884400000 5).1.suggestedSlots = [] ∧
    getNearbyAvailableSlots 1767884400000 3 = [] ∧
    (checkAvailability c3Slots 1767884400000 (1767884400000 + 3600000) 5).1.available
      = true ∧
    (checkAvailability c3Slots 1767884400000 (1767884400000 - 3600000) 5).1.available
      = true := by decide

/-! ## Cache lemmas -/

theorem mset_eq_append {κ ν : Type} [DecidableEq κ] (k : κ) (v : ν)
    (l : List (κ × ν)) (h : k ∉ mkeys l) : mset k v l = l ++ [(k, v)] := by
  induction l with
  | nil => rfl
  | cons p rest ih =>
    rw [mkeys_cons, List.mem_cons] at h
    push_neg at h
    rw [mset, if_neg (fun hh => h.1 hh.symm), List.cons_append, ih h.2]

theorem lruScan_some {α : Type} :
    ∀ (l : List (String × CacheEntry α)) (a : String × Nat),
      ∃ b, lruScan l (some a) = some b ∧ b.2 ≤ a.2 ∧ (b = a ∨ b.1 ∈ mkeys l) := by
  intro l
  induction l with
  | nil =>
    intro a
    exact ⟨a, rfl, Nat.le_refl _, Or.inl rfl⟩
  | cons p rest ih =>
    intro a
    rw [lruScan]
    by_cases hlt : p.2.lastAccessed < a.2
    · rw [if_pos hlt]
      obtain ⟨b, hb, hb2, hb3⟩ := ih (p.1, p.2.lastAccessed)
      refine ⟨b, hb, by omega, Or.inr ?_⟩
      rcases hb3 with hb3 | hb3
      · rw [hb3]; exact List.mem_cons_self _ _
      · exact List.mem_cons_of_mem _ hb3
    · rw [if_neg hlt]
      obtain ⟨b, hb, hb2, hb3⟩ := ih a
      refine ⟨b, hb, hb2, ?_⟩
      rcases hb3 with hb3 | hb3
      · exact Or.inl hb3
      · exact Or.inr (List.mem_cons_of_mem _ hb3)

theorem lruScan_append_skip {α : Type} (q : String × CacheEntry α) :
    ∀ (l : List (String × CacheEntry α)) (a : String × Nat),
      (∀ p ∈ l, p.2.lastAccessed ≤ q.2.lastAccessed) →
      a.2 ≤ q.2.lastAccessed →
      lruScan (l ++ [q]) (some a) = lruScan l (some a) := by
  intro l
  induction l with
  | nil =>
    intro a _ ha
    rw [List.nil_append, lruScan, lruScan]
    rw [if_neg (by omega : ¬(q.2.lastAccessed < a.2))]
    rfl
  | cons p rest ih =>
    intro a hall ha
    rw [List.cons_append, lruScan, lruScan]
    by_cases hlt : p.2.lastAccessed < a.2
    · rw [if_pos hlt, if_pos hlt]
      exact ih (p.1, p.2.lastAccessed)
        (fun r hr => hall r (List.mem_cons_of_mem _ hr))
        (hall p (List.mem_cons_self _ _))
    · rw [if_neg hlt, if_neg hlt]
      exact ih a (fun r hr => hall r (List.mem_cons_of_mem _ hr)) ha

/-- The freshly inserted entry (appended at the end, with the newest
last-access time) is never the LRU victim when an older entry exists. -/
theorem lruScan_fresh_not_victim {α : Type} (l : List (String × CacheEntry α))
    (ck : String) (e0 : CacheEntry α) (hne : l ≠ [])
    (hall : ∀ p ∈ l, p.2.lastAccessed ≤ e0.lastAccessed) :
    ∀ b, lruScan (l ++ [(ck, e0)]) none = some b → b.1 ∈ mkeys l := by
  intro b hb
  rcases l with _ | ⟨p, rest⟩
  · exact absurd rfl hne
  · rw [List.cons_append, lruScan] at hb
    rw [lruScan_append_skip (ck, e0) rest (p.1, p.2.lastAccessed)
      (fun r hr => hall r (List.mem_cons_of_mem _ hr))
      (hall p (List.mem_cons_self _ _))] at hb
    obtain ⟨b2, hb2, _, hb3⟩ := lruScan_some rest (p.1, p.2.lastAccessed)
    rw [hb2] at hb
    injection hb with hbb
    rw [hbb] at hb3
    rcases hb3 with hb3 | hb3
    · rw [hb3]
      exact List.mem_cons_self _ _
    · exact List.mem_cons_of_mem _ hb3

theorem evictLRUL2_l1 {α : Type} (st : CacheState α) :
    (evictLRUL2 st).l1 = st.l1 := by
  rw [evictLRUL2]
  split <;> rfl

/-- Eviction from the hot tier preserves the binding of any key that is
not the victim. -/
theorem evictLRUL1_preserves {α : Type} (st : CacheState α) (ck : String)
    (e : CacheEntry α) (hget : mget ck st.l1 = some e)
    (hvict : ∀ b, lruScan st.l1 none = some b → b.1 ≠ ck) :
    mget ck (evictLRUL1 st).l1 = some e := by
  rw [evictLRUL1]
  rcases hv : lruScan st.l1 none with _ | b
  · exact hget
  · have hne : ck ≠ b.1 := fun h => (hvict b hv) h.symm
    dsimp only
    split
    · dsimp only
      split
      · rw [evictLRUL2_l1]
        dsimp only
        rw [mget_mdel_ne _ hne]
        exact hget
      · dsimp only
        rw [mget_mdel_ne _ hne]
        exact hget
    · dsimp only
      rw [mget_mdel_ne _ hne]
      exact hget

theorem checkLayers_miss {α : Type} (st : CacheState α) (now : Nat) (key : String)
    (h1 : mget key st.l1 = none) (h2 : mget key st.l2 = none) :
    checkLayers st now key = (none, st) := by
  unfold checkLayers
  rw [h1, h2]

theorem checkLayers_l1_hit {α : Type} (st : CacheState α) (now : Nat)
    (key : String) (e : CacheEntry α) (h1 : mget key st.l1 = some e) :
    checkLayers st now key =
      (some { e with hits := e.hits + 1, lastAccessed := now },
        { st with
          l1 := mset key { e with hits := e.hits + 1, lastAccessed := now } st.l1 }) := by
  unfold checkLayers
  rw [h1]

theorem checkLayers_l2_hit {α : Type} (st : CacheState α) (now : Nat)
    (key : String) (e : CacheEntry α) (h1 : mget key st.l1 = none)
    (h2 : mget key st.l2 = some e) :
    checkLayers st now key =
      (some { e with hits := e.hits + 1, lastAccessed := now },
        { st with
          l2 := mset key { e with hits := e.hits + 1, lastAccessed := now } st.l2 }) := by
  unfold checkLayers
  rw [h1, h2]

/-- A fresh insertion by CacheService.set survives the capacity eviction:
the just-inserted entry carries the newest access time, so it is never
the LRU victim. -/
theorem cacheSet_mget {α : Type} (st : CacheState α) (now : Nat) (ck : String)
    (v : α) (ttl : Nat) (hmiss : mget ck st.l1 = none)
    (hwf : ∀ p ∈ st.l1, p.2.lastAccessed ≤ now) :
    mget ck (cacheSet st now ck v ttl).l1 =
      some ⟨v, now, ttl, 0, now⟩ := by
  rw [cacheSet]
  dsimp only
  have hnot : ck ∉ mkeys st.l1 := (mget_eq_none_iff ck st.l1).mp hmiss
  have happ : mset ck ⟨v, now, ttl, 0, now⟩ st.l1 = st.l1 ++ [(ck, ⟨v, now, ttl, 0, now⟩)] :=
    mset_eq_append _ _ _ hnot
  split
  · rename_i hlen
    refine evictLRUL1_preserves _ ck _ (mget_mset_self _ _ _) ?_
    intro b hb
    have hlne : st.l1 ≠ [] := by
      intro hemp
      rw [happ, hemp] at hlen
      simp at hlen
    rw [happ] at hb
    have hmem := lruScan_fresh_not_victim st.l1 ck _ hlne
      (fun p hp => hwf p hp) b hb
    intro hbc
    rw [hbc] at hmem
    exact hnot hmem
  · exact mget_mset_self _ _ _

/-! ## Claim C4 -/

/-- C4 fails on the code at ttl 0: `options.ttl || default` treats a zero
ttl as absent, so the value is stored with the one-hour default and a get
issued strictly after the zero ttl has elapsed still does NOT invoke its
generator. -/
theorem c4_counterexample :
    (cacheGet (⟨[], []⟩ : CacheState Nat) 1000 "q" (Except.ok 42) (some 0)).2.1
      = true ∧
    (cacheGet (cacheGet (⟨[], []⟩ : CacheState Nat) 1000 "q" (Except.ok 42)
        (some 0)).2.2 2000 "q" (Except.error ()) (some 0)).2.1 = false := by decide

/-- C4 amended: for every key, generator and POSITIVE ttl T, once a get
has stored a value (from a state whose tiers do not hold the key and whose
hot-tier access times do not postdate the call), an immediately subsequent
get with the same key within T returns the stored value without invoking
its generator, and one issued strictly after T has elapsed does invoke
it. -/
theorem c4_ttl_contract {α : Type} (st0 : CacheState α) (t0 t1 T : Nat)
    (k : String) (v : α) (g2 : Except Unit α) (ttl2 : Option Nat)
    (hT : 0 < T)
    (h1 : mget (generateKey k) st0.l1 = none)
    (h2 : mget (generateKey k) st0.l2 = none)
    (hwf : ∀ p ∈ st0.l1, p.2.lastAccessed ≤ t0) :
    (cacheGet st0 t0 k (Except.ok v) (some T)).2.1 = true ∧
    (t1 - t0 ≤ T →
      (cacheGet (cacheGet st0 t0 k (Except.ok v) (some T)).2.2 t1 k g2 ttl2).1 =
        Except.ok v ∧
      (cacheGet (cacheGet st0 t0 k (Except.ok v) (some T)).2.2 t1 k g2 ttl2).2.1 =
        false) ∧
    (T < t1 - t0 →
      (cacheGet (cacheGet st0 t0 k (Except.ok v) (some T)).2.2 t1 k g2 ttl2).2.1 =
        true) := by
  have hfirst : cacheGet st0 t0 k (Except.ok v) (some T) =
      (Except.ok v, true, cacheSet st0 t0 (generateKey k) v T) := by
    rw [cacheGet]
    rw [checkLayers_miss st0 t0 _ h1 h2]
    rw [if_pos (by omega : T ≠ 0)]
  have hE : mget (generateKey k) (cacheSet st0 t0 (generateKey k) v T).l1 =
      some ⟨v, t0, T, 0, t0⟩ :=
    cacheSet_mget st0 t0 (generateKey k) v T h1 hwf
  have hsecond : ∀ g2t : Except Unit α, ∀ tt : Option Nat,
      cacheGet (cacheSet st0 t0 (generateKey k) v T) t1 k g2t tt =
        (if !isExpired ⟨v, t0, T, 1, t1⟩ t1 then
          (Except.ok v, false,
            promote (checkLayers (cacheSet st0 t0 (generateKey k) v T) t1
              (generateKey k)).2 (generateKey k) ⟨v, t0, T, 1, t1⟩)
        else
          match g2t with
          | Except.ok value =>
            (Except.ok value, true,
              cacheSet (checkLayers (cacheSet st0 t0 (generateKey k) v T) t1
                (generateKey k)).2 t1 (generateKey k) value
                (match tt with
                 | some t => if t ≠ 0 then t else 3600000
                 | none => 3600000))
          | Except.error e => (Except.ok v, true,
              (checkLayers (cacheSet st0 t0 (generateKey k) v T) t1
                (generateKey k)).2)) := by
    intro g2t tt
    rw [cacheGet.eq_def]
    dsimp only
    rw [checkLayers_l1_hit _ t1 _ _ hE]
  refine ⟨by rw [hfirst], ?_, ?_⟩
  · intro hin
    have hexp : (!isExpired (⟨v, t0, T, 1, t1⟩ : CacheEntry α) t1) = true := by
      rw [isExpired]
      simp only [Bool.not_eq_true']
      rw [decide_eq_false_iff_not]
      omega
    rw [hfirst]
    rw [hsecond g2 ttl2, if_pos hexp]
    exact ⟨rfl, rfl⟩
  · intro hout
    have hexp : ¬((!isExpired (⟨v, t0, T, 1, t1⟩ : CacheEntry α) t1) = true) := by
      rw [isExpired]
      simp only [Bool.not_eq_true']
      rw [decide_eq_false_iff_not]
      omega
    rw [hfirst]
    rw [hsecond g2 ttl2, if_neg hexp]
    cases g2 <;> rfl

/-- Witness for the amended C4 at a concrete pair of calls. -/
theorem c4_witness :
    (cacheGet (⟨[], []⟩ : CacheState Nat) 1000 "q" (Except.ok 42) (some 50)).2.1
      = true ∧
    (1040 - 1000 ≤ 50 →
      (cacheGet (cacheGet (⟨[], []⟩ : CacheState Nat) 1000 "q" (Except.ok 42)
          (some 50)).2.2 1040 "q" (Except.error ()) none).1 = Except.ok 42 ∧
      (cacheGet (cacheGet (⟨[], []⟩ : CacheState Nat) 1000 "q" (Except.ok 42)
          (some 50)).2.2 1040 "q" (Except.error ()) none).2.1 = false) ∧
    (50 < 1040 - 1000 →
      (cacheGet (cacheGet (⟨[], []⟩ : CacheState Nat) 1000 "q" (Except.ok 42)
          (some 50)).2.2 1040 "q" (Except.error ()) none).2.1 = true) :=
  c4_ttl_contract (⟨[], []⟩ : CacheState Nat) 1000 1040 50 "q" 42
    (Except.error ()) none (by decide) (by decide) (by decide)
    (by intro p hp; cases hp)

/-! ## Claim C7 -/

/-- C7: fail-soft. If the generator rejects on a miss and a stale
(expired) entry for the key sits in either tier, get returns that stale
value (the generator having been invoked); if no entry exists at all, the
rejection propagates to the caller. -/
theorem c7_fail_soft {α : Type} (st0 : CacheState α) (now : Nat) (k : String)
    (ttlOpt : Option Nat) :
    (∀ e : CacheEntry α,
      (mget (generateKey k) st0.l1 = some e ∨
        (mget (generateKey k) st0.l1 = none ∧
          mget (generateKey k) st0.l2 = some e)) →
      isExpired e now = true →
      (cacheGet st0 now k (Except.error ()) ttlOpt).1 = Except.ok e.value ∧
      (cacheGet st0 now k (Except.error ()) ttlOpt).2.1 = true) ∧
    (mget (generateKey k) st0.l1 = none → mget (generateKey k) st0.l2 = none →
      (cacheGet st0 now k (Except.error ()) ttlOpt).1 = Except.error ()) := by
  constructor
  · intro e hfound hexp
    have hexp1 : isExpired { e with hits := e.hits + 1, lastAccessed := now } now
        = true := hexp
    have hnot : ¬((!isExpired { e with hits := e.hits + 1, lastAccessed := now }
        now) = true) := by
      rw [hexp1]
      decide
    rcases hfound with hl1 | ⟨hl1, hl2⟩
    · rw [cacheGet.eq_def]
      dsimp only
      rw [checkLayers_l1_hit _ now _ _ hl1]
      dsimp only
      rw [if_neg hnot]
      exact ⟨rfl, rfl⟩
    · rw [cacheGet.eq_def]
      dsimp only
      rw [checkLayers_l2_hit _ now _ _ hl1 hl2]
      dsimp only
      rw [if_neg hnot]
      exact ⟨rfl, rfl⟩
  · intro hl1 hl2
    rw [cacheGet.eq_def]
    dsimp only
    rw [checkLayers_miss _ now _ hl1 hl2]

/-- Witness for C7: a stale entry is served on generator failure, and the
failure propagates when nothing is cached. -/
theorem c7_witness :
    ((cacheGet (⟨[("q", ⟨7, 0, 10, 0, 0⟩)], []⟩ : CacheState Nat) 1000 "q"
        (Except.error ()) none).1 = Except.ok 7 ∧
      (cacheGet (⟨[("q", ⟨7, 0, 10, 0, 0⟩)], []⟩ : CacheState Nat) 1000 "q"
        (Except.error ()) none).2.1 = true) ∧
    (cacheGet (⟨[], []⟩ : CacheState Nat) 1000 "q" (Except.error ()) none).1 =
      Except.error () := by
  constructor
  · exact (c7_fail_soft (⟨[("q", ⟨7, 0, 10, 0, 0⟩)], []⟩ : CacheState Nat) 1000
      "q" none).1 ⟨7, 0, 10, 0, 0⟩ (Or.inl (by decide)) (by decide)
  · exact (c7_fail_soft (⟨[], []⟩ : CacheState Nat) 1000 "q" none).2
      (by decide) (by decide)

/-! ## Claim C9 -/

/-- Integer floor division agrees with the division notation. -/
theorem ediv_eq_div (a b : Int) : a.ediv b = a / b := rfl

/-- Integer Euclidean remainder agrees with the remainder notation. -/
theorem emod_eq_mod (a b : Int) : a.emod b = a % b := rfl

/-- Normal form of setting the clock to 10:00. -/
theorem jsSetHours10_eq (x : Int) :
    jsSetHours x 10 0 0 0 = 86400000 * (x.ediv 86400000) + 36000000 := by
  simp only [jsSetHours, jsDayStart, ediv_eq_div, emod_eq_mod]
  omega

/-- Setting the clock to 10:00 yields a time of day of exactly 10:00. -/
theorem jsSetHours10_timeOfDay (x : Int) :
    (jsSetHours x 10 0 0 0).emod 86400000 = 36000000 := by
  rw [jsSetHours10_eq]
  simp only [ediv_eq_div, emod_eq_mod]
  omega

/-- Setting the clock to 10:00 stays on the same calendar day. -/
theorem jsSetHours10_day (x : Int) :
    (jsSetHours x 10 0 0 0).ediv 86400000 = x.ediv 86400000 := by
  rw [jsSetHours10_eq]
  simp only [ediv_eq_div, emod_eq_mod]
  omega

/-- Adding one day advances the day number by one. -/
theorem ediv_day_succ (x : Int) :
    (x + 86400000).ediv 86400000 = x.ediv 86400000 + 1 := by
  simp only [ediv_eq_div]
  omega

/-- With the calendar round-trip at the current day, setDate(getDate()+1)
advances the instant by exactly one day. -/
theorem jsSetDate_inc (x : Int) (hcal : calendarRoundTrip (x.ediv 86400000)) :
    jsSetDate x (jsGetDate x + 1) = x + 86400000 := by
  rw [calendarRoundTrip] at hcal
  simp only [jsSetDate, jsGetDate]
  simp only [ediv_eq_div, emod_eq_mod] at hcal ⊢
  omega

/-- C9 fails on the code: at 14:45, "today" with no explicit time resolves
to 16:00 — hour + 2 with minutes zeroed — not to 16:45, the instant
exactly two hours after the current time that the claim states. -/
theorem c9_counterexample :
    validateDateTime (fun _ => none) 1767624300000 "today" =
      DtResult.valid 1767628800000 ∧
    (1767628800000 : Int) ≠ 1767624300000 + 7200000 := by decide

/-- C9 amended: for every accepted input, (1) one containing "tomorrow"
with no meridiem time resolves to 10:00 on the next calendar day; (2) one
containing "next" (and not "tomorrow") naming a weekday, with no meridiem
time, resolves to a 10:00 time of day; (3) one containing "today" (and
neither "tomorrow" nor "next") with no meridiem time resolves to the
start of the current day plus (current hour + 2) hours — minutes zeroed,
i.e. the top of an hour — NOT exactly two hours after the current time. -/
theorem c9_default_times (dateParse : String → Option Int) (now r : Int)
    (s : String)
    (hval : validateDateTime dateParse now s = DtResult.valid r) :
    (jsIncludes (jsTrim (jsToLowerCase s.data)) "tomorrow".data = true →
      findTimeMatch (jsTrim (jsToLowerCase s.data)) = none →
      calendarRoundTrip (now.ediv 86400000) →
      r.emod 86400000 = 36000000 ∧ r.ediv 86400000 = now.ediv 86400000 + 1) ∧
    (jsIncludes (jsTrim (jsToLowerCase s.data)) "tomorrow".data = false →
      jsIncludes (jsTrim (jsToLowerCase s.data)) "next".data = true →
      (∀ j : Nat,
        (["sunday", "monday", "tuesday", "wednesday", "thursday", "friday",
          "saturday"].findIdx? fun d =>
            jsIncludes (jsTrim (jsToLowerCase s.data)) d.data) = some j →
        findTimeMatch (jsTrim (jsToLowerCase s.data)) = none →
        r.emod 86400000 = 36000000)) ∧
    (jsIncludes (jsTrim (jsToLowerCase s.data)) "tomorrow".data = false →
      jsIncludes (jsTrim (jsToLowerCase s.data)) "next".data = false →
      jsIncludes (jsTrim (jsToLowerCase s.data)) "today".data = true →
      findTimeMatch (jsTrim (jsToLowerCase s.data)) = none →
      r = jsDayStart now + (jsGetHours now + 2) * 3600000 ∧
        r.emod 3600000 = 0) := by
  refine ⟨?_, ?_, ?_⟩
  · intro htom hmatch hcal
    rw [validateDateTime] at hval
    rw [if_pos htom, hmatch] at hval
    dsimp only at hval
    split at hval
    · cases hval
    · split at hval
      · cases hval
      · injection hval with hr
        rw [← hr, jsSetDate_inc now hcal]
        exact ⟨jsSetHours10_timeOfDay _, by rw [jsSetHours10_day, ediv_day_succ]⟩
  · intro htom hnext j hfind hmatch
    rw [validateDateTime] at hval
    rw [if_neg (by rw [htom]; exact Bool.false_ne_true), if_pos hnext] at hval
    dsimp only at hval
    rw [hfind] at hval
    dsimp only at hval
    rw [hmatch] at hval
    dsimp only at hval
    split at hval
    · split at hval
      · cases hval
      · split at hval
        · cases hval
        · injection hval with hr
          rw [← hr, jsSetHours10_timeOfDay]
    · split at hval
      · cases hval
      · split at hval
        · cases hval
        · injection hval with hr
          rw [← hr, jsSetHours10_timeOfDay]
  · intro htom hnext htoday hmatch
    rw [validateDateTime] at hval
    rw [if_neg (by rw [htom]; exact Bool.false_ne_true),
      if_neg (by rw [hnext]; exact Bool.false_ne_true), if_pos htoday,
      hmatch] at hval
    dsimp only at hval
    split at hval
    · cases hval
    · split at hval
      · cases hval
      · injection hval with hr
        constructor
        · rw [← hr]
          simp only [jsSetHours]
          ring
        · rw [← hr]
          simp only [jsSetHours, jsDayStart, ediv_eq_div, emod_eq_mod]
          omega

/-- Witness for the amended C9: the three default-time rules at concrete
inputs, with Monday 2026-01-05 14:45 UTC as the current instant. -/
theorem c9_witness :
    ((1767693600000 : Int).emod 86400000 = 36000000 ∧
      (1767693600000 : Int).ediv 86400000 =
        (1767624300000 : Int).ediv 86400000 + 1) ∧
    ((1767952800000 : Int).emod 86400000 = 36000000) ∧
    ((1767628800000 : Int) = jsDayStart 1767624300000 +
        (jsGetHours 1767624300000 + 2) * 3600000 ∧
      (1767628800000 : Int).emod 3600000 = 0) := by
  refine ⟨?_, ?_, ?_⟩
  · exact (c9_default_times (fun _ => none) 1767624300000 1767693600000
      "tomorrow" (by decide)).1 (by decide) (by decide) (by decide)
  · exact (c9_default_times (fun _ => none) 1767624300000 1767952800000
      "next friday" (by decide)).2.1 (by decide) (by decide) 5 (by decide)
      (by decide)
  · exact (c9_default_times (fun _ => none) 1767624300000 1767628800000
      "today" (by decide)).2.2 (by decide) (by decide) (by decide) (by decide)

/-! ## Claim C8 -/

theorem editDistance_nil (ys : List Char) : editDistance [] ys = ys.length := by
  simp [editDistance]

theorem editDistance_nil_right (xs : List Char) :
    editDistance xs [] = xs.length := by
  cases xs with
  | nil => simp [editDistance]
  | cons x xs => simp [editDistance]

theorem editDistance_cons_cons (x y : Char) (xs ys : List Char) :
    editDistance (x :: xs) (y :: ys) =
      if x = y then editDistance xs ys
      else 1 + Nat.min (editDistance xs ys)
        (Nat.min (editDistance (x :: xs) ys) (editDistance xs (y :: ys))) := by
  rw [editDistance]

theorem editDistance_symm_aux :
    ∀ n xs ys, List.length xs + List.length ys ≤ n →
      editDistance xs ys = editDistance ys xs := by
  intro n
  induction n with
  | zero =>
    intro xs ys hlen
    rcases xs with _ | ⟨x, xs⟩
    · rw [editDistance_nil, editDistance_nil_right]
    · simp at hlen
  | succ n ih =>
    intro xs ys hlen
    rcases xs with _ | ⟨x, xs⟩
    · rw [editDistance_nil, editDistance_nil_right]
    · rcases ys with _ | ⟨y, ys⟩
      · rw [editDistance_nil, editDistance_nil_right]
      · simp only [List.length_cons] at hlen
        rw [editDistance_cons_cons, editDistance_cons_cons]
        rw [ih xs ys (by omega),
          ih (x :: xs) ys (by simp only [List.length_cons]; omega),
          ih xs (y :: ys) (by simp only [List.length_cons]; omega)]
        by_cases hxy : x = y
        · rw [if_pos hxy, if_pos hxy.symm]
        · rw [if_neg hxy, if_neg (fun h => hxy h.symm)]
          simp only [Nat.min_def]
          split_ifs <;> omega

/-- Symmetry of the reference edit distance. -/
theorem editDistance_symm (xs ys : List Char) :
    editDistance xs ys = editDistance ys xs :=
  editDistance_symm_aux (xs.length + ys.length) xs ys (Nat.le_refl _)

/-- Distance to the identical list is zero. -/
theorem editDistance_self : ∀ xs : List Char, editDistance xs xs = 0
  | [] => by simp [editDistance]
  | x :: xs => by
    rw [editDistance_cons_cons, if_pos rfl]
    exact editDistance_self xs

/-- Closed form of the distance from a single character. -/
theorem editDistance_single (x : Char) :
    ∀ zs : List Char, editDistance [x] zs =
      if zs = [] then 1
      else if x ∈ zs then zs.length - 1 else zs.length := by
  intro zs
  induction zs with
  | nil => simp [editDistance]
  | cons z zs ih =>
    rw [editDistance_cons_cons]
    rw [editDistance_nil, editDistance_nil, ih]
    by_cases hxz : x = z
    · rw [if_pos hxz]
      have hmem : x ∈ z :: zs := by rw [hxz]; exact List.mem_cons_self _ _
      rw [if_neg (List.cons_ne_nil z zs), if_pos hmem]
      simp
    · rw [if_neg hxz, if_neg (List.cons_ne_nil z zs)]
      have hmem : (x ∈ z :: zs) ↔ (x ∈ zs) := by
        constructor
        · intro h
          rcases List.mem_cons.mp h with h | h
          · exact absurd h hxz
          · exact h
        · exact fun h => List.mem_cons_of_mem _ h
      by_cases hznil : zs = []
      · subst hznil
        have : ¬(x ∈ ([] : List Char)) := List.not_mem_nil x
        rw [if_pos rfl, if_neg (fun h => this (hmem.mp h))]
        simp [Nat.min_def]
      · rw [if_neg hznil]
        have hpos : 0 < zs.length := List.length_pos.mpr hznil
        by_cases hm : x ∈ zs
        · rw [if_pos (hmem.mpr hm), if_pos hm]
          simp only [List.length_cons, Nat.min_def]
          split_ifs <;> omega
        · rw [if_neg (fun h => hm (hmem.mp h)), if_neg hm]
          simp only [List.length_cons, Nat.min_def]
          split_ifs <;> omega

theorem natMin_eq_min (a b : Nat) : Nat.min a b = min a b := rfl

theorem min_add_one (a b : Nat) : Nat.min (1 + a) (1 + b) = 1 + Nat.min a b := by
  simp only [natMin_eq_min]; omega

theorem levMin_dist (a b c : Nat) :
    Nat.min (a + 1) (Nat.min (b + 1) (c + 1)) = 1 + Nat.min a (Nat.min c b) := by
  simp only [natMin_eq_min]; omega

theorem min_shuffle (d1 d2 d3 e1 e2 e3 f1 f2 f3 : Nat) :
    Nat.min (1 + Nat.min d1 (Nat.min d2 d3))
      (Nat.min (1 + Nat.min e1 (Nat.min e2 e3)) (1 + Nat.min f1 (Nat.min f2 f3))) =
    Nat.min (1 + Nat.min d1 (Nat.min e1 f1))
      (Nat.min (1 + Nat.min d2 (Nat.min e2 f2)) (1 + Nat.min d3 (Nat.min e3 f3))) := by
  rw [min_add_one, min_add_one, min_add_one, min_add_one]
  simp only [natMin_eq_min]
  congr 1
  simp only [min_assoc, min_comm, min_left_comm]

/-- The reference edit distance also satisfies the recurrence on the LAST
characters of its arguments: the bridge between the head-recursive
reference definition and the prefix-indexed dynamic-programming matrix. -/
theorem editDistance_snoc_aux :
    ∀ n : Nat, ∀ (xs ys : List Char) (x y : Char), xs.length + ys.length ≤ n →
      editDistance (xs ++ [x]) (ys ++ [y]) =
        if x = y then editDistance xs ys
        else 1 + Nat.min (editDistance xs ys)
          (Nat.min (editDistance (xs ++ [x]) ys) (editDistance xs (ys ++ [y]))) := by
  intro n
  induction n with
  | zero =>
    intro xs ys x y hlen
    have hx : xs = [] := by
      cases xs with
      | nil => rfl
      | cons a l => simp only [List.length_cons] at hlen; omega
    have hy : ys = [] := by
      cases ys with
      | nil => rfl
      | cons a l => subst hx; simp only [List.length_cons, List.length_nil] at hlen; omega
    subst hx; subst hy
    simp only [List.nil_append]
    exact editDistance_cons_cons x y [] []
  | succ n ih =>
    intro xs ys x y hlen
    cases xs with
    | nil =>
      cases ys with
      | nil =>
        simp only [List.nil_append]
        exact editDistance_cons_cons x y [] []
      | cons y' ys' =>
        simp only [List.nil_append]
        rw [editDistance_single, editDistance_single, editDistance_nil, editDistance_nil]
        have hne1 : ((y' :: ys') ++ [y]) ≠ [] := by simp
        have hne2 : (y' :: ys') ≠ ([] : List Char) := by simp
        rw [if_neg hne1, if_neg hne2]
        by_cases hxy : x = y
        · rw [if_pos hxy]
          have hmem : x ∈ (y' :: ys') ++ [y] :=
            List.mem_append_right _ (List.mem_singleton.mpr hxy)
          rw [if_pos hmem]
          simp only [List.length_append, List.length_cons, List.length_nil]
          omega
        · rw [if_neg hxy]
          by_cases hxm : x ∈ y' :: ys'
          · have hmem : x ∈ (y' :: ys') ++ [y] := List.mem_append_left _ hxm
            rw [if_pos hmem, if_pos hxm]
            simp only [List.length_append, List.length_cons, List.length_nil, natMin_eq_min]
            omega
          · have hmem : x ∉ (y' :: ys') ++ [y] := by
              intro hc
              rcases List.mem_append.mp hc with h | h
              · exact hxm h
              · exact hxy (List.mem_singleton.mp h)
            rw [if_neg hmem, if_neg hxm]
            simp only [List.length_append, List.length_cons, List.length_nil, natMin_eq_min]
            omega
    | cons x' xs' =>
      cases ys with
      | nil =>
        simp only [List.nil_append]
        rw [editDistance_symm ((x' :: xs') ++ [x]) [y], editDistance_single,
          editDistance_nil_right, editDistance_nil_right,
          editDistance_symm (x' :: xs') [y], editDistance_single]
        have hne1 : ((x' :: xs') ++ [x]) ≠ [] := by simp
        have hne2 : (x' :: xs') ≠ ([] : List Char) := by simp
        rw [if_neg hne1, if_neg hne2]
        by_cases hxy : x = y
        · rw [if_pos hxy]
          have hmem : y ∈ (x' :: xs') ++ [x] :=
            List.mem_append_right _ (List.mem_singleton.mpr hxy.symm)
          rw [if_pos hmem]
          simp only [List.length_append, List.length_cons, List.length_nil]
          omega
        · rw [if_neg hxy]
          by_cases hym : y ∈ x' :: xs'
          · have hmem : y ∈ (x' :: xs') ++ [x] := List.mem_append_left _ hym
            rw [if_pos hmem, if_pos hym]
            simp only [List.length_append, List.length_cons, List.length_nil, natMin_eq_min]
            omega
          · have hmem : y ∉ (x' :: xs') ++ [x] := by
              intro hc
              rcases List.mem_append.mp hc with h | h
              · exact hym h
              · exact hxy (List.mem_singleton.mp h).symm
            rw [if_neg hmem, if_neg hym]
            simp only [List.length_append, List.length_cons, List.length_nil, natMin_eq_min]
            omega
      | cons y' ys' =>
        simp only [List.length_cons] at hlen
        have hIH1 := ih xs' ys' x y (by omega)
        have hIH2 := ih (x' :: xs') ys' x y (by simp only [List.length_cons]; omega)
        have hIH3 := ih xs' (y' :: ys') x y (by simp only [List.length_cons]; omega)
        simp only [List.cons_append] at hIH2 hIH3 ⊢
        rw [editDistance_cons_cons x' y' (xs' ++ [x]) (ys' ++ [y])]
        by_cases hxy' : x' = y'
        · rw [if_pos hxy']
          rw [hIH1]
          rw [editDistance_cons_cons x' y' xs' ys', if_pos hxy']
          rw [editDistance_cons_cons x' y' (xs' ++ [x]) ys', if_pos hxy']
          rw [editDistance_cons_cons x' y' xs' (ys' ++ [y]), if_pos hxy']
        · rw [if_neg hxy']
          rw [hIH1, hIH2, hIH3]
          by_cases hxy : x = y
          · simp only [if_pos hxy]
            rw [editDistance_cons_cons x' y' xs' ys', if_neg hxy']
          · simp only [if_neg hxy]
            rw [editDistance_cons_cons x' y' xs' ys', if_neg hxy',
              editDistance_cons_cons x' y' (xs' ++ [x]) ys', if_neg hxy',
              editDistance_cons_cons x' y' xs' (ys' ++ [y]), if_neg hxy']
            rw [min_shuffle]

theorem editDistance_snoc (xs ys : List Char) (x y : Char) :
    editDistance (xs ++ [x]) (ys ++ [y]) =
      if x = y then editDistance xs ys
      else 1 + Nat.min (editDistance xs ys)
        (Nat.min (editDistance (xs ++ [x]) ys) (editDistance xs (ys ++ [y]))) :=
  editDistance_snoc_aux (xs.length + ys.length) xs ys x y (Nat.le_refl _)

theorem levMatrix_zero (s1 s2 : List Char) (j : Nat) : levMatrix s1 s2 0 j = j := by
  rw [levMatrix]

theorem levMatrix_succ_zero (s1 s2 : List Char) (i : Nat) :
    levMatrix s1 s2 (i + 1) 0 = i + 1 := by
  rw [levMatrix]

theorem levMatrix_succ_succ (s1 s2 : List Char) (i j : Nat) :
    levMatrix s1 s2 (i + 1) (j + 1) =
      if s2.getD i ' ' = s1.getD j ' ' then levMatrix s1 s2 i j
      else Nat.min (levMatrix s1 s2 i j + 1)
        (Nat.min (levMatrix s1 s2 (i + 1) j + 1) (levMatrix s1 s2 i (j + 1) + 1)) := by
  rw [levMatrix]

theorem take_snoc_getD (l : List Char) (j : Nat) (h : j < l.length) :
    l.take (j + 1) = l.take j ++ [l.getD j ' '] := by
  rw [List.take_succ]
  congr 1
  rw [List.getElem?_eq_getElem h]
  simp [List.getD, List.getElem?_eq_getElem h]

/-- Cell (i, j) of the similarity matrix holds the reference edit distance
of the prefixes str1.take j and str2.take i. -/
theorem levMatrix_eq_aux :
    ∀ n : Nat, ∀ (s1 s2 : List Char) (i j : Nat), i + j ≤ n →
      i ≤ s2.length → j ≤ s1.length →
      levMatrix s1 s2 i j = editDistance (s1.take j) (s2.take i) := by
  intro n
  induction n with
  | zero =>
    intro s1 s2 i j hn hi hj
    have hi0 : i = 0 := by omega
    have hj0 : j = 0 := by omega
    subst hi0; subst hj0
    rw [levMatrix_zero, List.take_zero, List.take_zero, editDistance_nil]
    rfl
  | succ n ih =>
    intro s1 s2 i j hn hi hj
    cases i with
    | zero =>
      rw [levMatrix_zero, List.take_zero, editDistance_nil_right, List.length_take]
      omega
    | succ i =>
      cases j with
      | zero =>
        rw [levMatrix_succ_zero, List.take_zero, editDistance_nil, List.length_take]
        omega
      | succ j =>
        have hilt : i < s2.length := by omega
        have hjlt : j < s1.length := by omega
        have ht1 : s1.take (j + 1) = s1.take j ++ [s1.getD j ' '] := take_snoc_getD s1 j hjlt
        have ht2 : s2.take (i + 1) = s2.take i ++ [s2.getD i ' '] := take_snoc_getD s2 i hilt
        rw [levMatrix_succ_succ, ht1, ht2, editDistance_snoc]
        by_cases hc : s2.getD i ' ' = s1.getD j ' '
        · rw [if_pos hc, if_pos hc.symm]
          exact ih s1 s2 i j (by omega) (by omega) (by omega)
        · rw [if_neg hc, if_neg (fun h => hc h.symm)]
          rw [ih s1 s2 i j (by omega) (by omega) (by omega)]
          rw [ih s1 s2 (i + 1) j (by omega) hi (by omega)]
          rw [ih s1 s2 i (j + 1) (by omega) (by omega) hj]
          rw [ht1, ht2]
          rw [levMin_dist]

/-- The bottom-right matrix cell read by calculateSimilarity is exactly the
reference edit distance of the two full character lists. -/
theorem levMatrix_full (s1 s2 : List Char) :
    levMatrix s1 s2 s2.length s1.length = editDistance s1 s2 := by
  rw [levMatrix_eq_aux (s2.length + s1.length) s1 s2 s2.length s1.length
    (Nat.le_refl _) (Nat.le_refl _) (Nat.le_refl _)]
  rw [List.take_length, List.take_length]

theorem strLength_ne_zero (s : String) (h : s ≠ "") : s.length ≠ 0 := by
  intro hl
  apply h
  apply String.ext
  exact List.length_eq_zero.mp hl

theorem calculateSimilarity_eq (a b : String) (ha : a ≠ "") (hb : b ≠ "") :
    calculateSimilarity a b =
      1 - (editDistance a.data b.data : ℚ) / (max a.length b.length : ℚ) := by
  unfold calculateSimilarity
  dsimp only
  rw [if_neg (strLength_ne_zero a ha), if_neg (strLength_ne_zero b hb)]
  have h1 : a.length = a.data.length := rfl
  have h2 : b.length = b.data.length := rfl
  rw [h1, h2, levMatrix_full]

/-- The similarity formula holds whenever at least one argument is
nonempty (at two empty arguments the quotient is 0/0). -/
theorem calculateSimilarity_formula (a b : String) (h : a ≠ "" ∨ b ≠ "") :
    calculateSimilarity a b =
      1 - (editDistance a.data b.data : ℚ) / (max a.length b.length : ℚ) := by
  by_cases ha : a = ""
  · have hb : b ≠ "" := by
      rcases h with h | h
      · exact absurd ha h
      · exact h
    subst ha
    have hd : ("" : String).data = [] := rfl
    have hl : ("" : String).length = 0 := rfl
    rw [hd, hl, editDistance_nil]
    have hb2 : b.data.length = b.length := rfl
    rw [hb2]
    have hmax : max (((0 : Nat) : ℚ)) ((b.length : Nat) : ℚ) = ((b.length : Nat) : ℚ) :=
      max_eq_right (Nat.cast_nonneg _)
    rw [hmax]
    rw [div_self (Nat.cast_ne_zero.mpr (strLength_ne_zero b hb))]
    have h0 : calculateSimilarity "" b = 0 := by simp [calculateSimilarity]
    rw [h0]
    ring
  · by_cases hb : b = ""
    · subst hb
      have hd : ("" : String).data = [] := rfl
      have hl : ("" : String).length = 0 := rfl
      rw [hd, hl, editDistance_nil_right]
      have ha2 : a.data.length = a.length := rfl
      rw [ha2]
      have hmax : max ((a.length : Nat) : ℚ) (((0 : Nat) : ℚ)) = ((a.length : Nat) : ℚ) :=
        max_eq_left (Nat.cast_nonneg _)
      rw [hmax]
      rw [div_self (Nat.cast_ne_zero.mpr (strLength_ne_zero a ha))]
      have h0 : calculateSimilarity a "" = 0 := by simp [calculateSimilarity]
      rw [h0]
      ring
    · exact calculateSimilarity_eq a b ha hb

theorem calculateSimilarity_symm (a b : String) :
    calculateSimilarity a b = calculateSimilarity b a := by
  by_cases ha : a = ""
  · subst ha
    simp [calculateSimilarity]
  · by_cases hb : b = ""
    · subst hb
      simp [calculateSimilarity]
    · rw [calculateSimilarity_eq a b ha hb, calculateSimilarity_eq b a hb ha,
        editDistance_symm, max_comm]

/-- C8: calculateSimilarity is symmetric in its two arguments; whenever at
least one argument is nonempty it equals 1 minus the unit-cost Levenshtein
distance divided by the longer length; it is 1 on identical nonempty
strings; and it is 0 whenever either argument is the empty string. -/
theorem c8_similarity_contract :
    (∀ a b : String, calculateSimilarity a b = calculateSimilarity b a) ∧
    (∀ a b : String, a ≠ "" ∨ b ≠ "" →
      calculateSimilarity a b =
        1 - (editDistance a.data b.data : ℚ) / (max a.length b.length : ℚ)) ∧
    (∀ a : String, a ≠ "" → calculateSimilarity a a = 1) ∧
    (∀ b : String, calculateSimilarity "" b = 0 ∧ calculateSimilarity b "" = 0) := by
  refine ⟨calculateSimilarity_symm, calculateSimilarity_formula, ?_, ?_⟩
  · intro a ha
    rw [calculateSimilarity_eq a a ha ha, editDistance_self]
    simp
  · intro b
    constructor
    · simp [calculateSimilarity]
    · simp [calculateSimilarity]

/-- Witness for C8 at the concrete strings "ab", "ba" and "". -/
theorem c8_witness :
    calculateSimilarity "ab" "ba" = calculateSimilarity "ba" "ab" ∧
    (("ab" : String) ≠ "" ∨ ("ba" : String) ≠ "") ∧
    calculateSimilarity "ab" "ba" =
      1 - (editDistance "ab".data "ba".data : ℚ) /
        (max (String.length "ab") (String.length "ba") : ℚ) ∧
    ("ab" : String) ≠ "" ∧ calculateSimilarity "ab" "ab" = 1 ∧
    calculateSimilarity "" "ba" = 0 ∧ calculateSimilarity "ba" "" = 0 := by
  obtain ⟨hsymm, hform, hid, hemp⟩ := c8_similarity_contract
  exact ⟨hsymm "ab" "ba", Or.inl (by decide),
    hform "ab" "ba" (Or.inl (by decide)), by decide,
    hid "ab" (by decide), (hemp "ba").1, (hemp "ba").2⟩
